import Mathlib

/-!
# ChemDocGenius — verification of the extraction/normalization pipeline

Shallow embedding of the ChemDocGenius server code:

* `src/server/services/mistral.ts` — `MistralService.extractStructuredData`
  post-processing (field-id assignment, section synthesis), the 429 retry
  loop, and `processDocument` validation;
* shared schema (`extractedDataSchema`, `dynamicFieldSchema`) — the zod
  validators, embedded as boolean checkers over untyped JSON;
* `MemStorage.updateDocument` / `MemStorage.updateSettings`;
* `src/server/routes.ts` — the process / settings route handlers;
* `src/client/src/components/review-step.tsx` — `removeTableRow`;
* `src/server/services/document-generator.ts` — the PDF/DOCX field
  traversal.

The raw AI payload is modelled as an untyped JSON value (`Json`), matching
the TypeScript code, which handles `parsedData` as `any`.  JavaScript
truthiness, property lookup/assignment, and `Map` insertion-order grouping
are modelled explicitly.  A JavaScript `Map` keyed by values obtained from
`JSON.parse` compares primitive keys structurally but objects and arrays by
reference; since every parsed object/array is a fresh reference, two
object-valued keys never collide — `keyEq` reflects this by returning
`false` on non-primitive values.
-/

namespace ChemDoc

/-- Untyped JSON value, the shape of the AI payload at the boundary.
Property absence is modelled by `Option` at lookup sites (JS `undefined`). -/
inductive Json where
  | null : Json
  | bool (b : Bool) : Json
  | num (n : Int) : Json
  | str (s : String) : Json
  | arr (xs : List Json) : Json
  | obj (kvs : List (String × Json)) : Json
deriving Repr

/-- First-match association-list lookup (JS objects have unique keys). -/
def lookupKv : List (String × Json) → String → Option Json
  | [], _ => none
  | (k2, v) :: rest, k => if k2 = k then some v else lookupKv rest k

/-- JS property read `j[k]`; `none` models `undefined` (also on non-objects,
where a property read yields `undefined` for our keys). -/
def jget (j : Json) (k : String) : Option Json :=
  match j with
  | .obj kvs => lookupKv kvs k
  | _ => none

/-- JS property assignment on an object: replace in place, else append. -/
def setKv : List (String × Json) → String → Json → List (String × Json)
  | [], k, v => [(k, v)]
  | (k2, v2) :: rest, k, v =>
      if k2 = k then (k, v) :: rest else (k2, v2) :: setKv rest k v

/-- JS property assignment `j[k] = v`.  In the modelled code it is only ever
applied to objects (`parsedData` comes from parsing a `\x7b...\x7d` match). -/
def jset (j : Json) (k : String) (v : Json) : Json :=
  match j with
  | .obj kvs => .obj (setKv kvs k v)
  | other => other

/-- JavaScript truthiness of a value. -/
def truthy : Json → Bool
  | .null => false
  | .bool b => b
  | .num n => n != 0
  | .str s => s != ""
  | .arr _ => true
  | .obj _ => true

/-- Truthiness of a possibly-absent property (`undefined` is falsy). -/
def truthyOpt : Option Json → Bool
  | some j => truthy j
  | none => false

/-- `Array.isArray`. -/
def isArr : Json → Bool
  | .arr _ => true
  | _ => false

/-- JS `Map` key comparison (SameValueZero) for values produced by
`JSON.parse`: structural on primitives; objects/arrays are compared by
reference, and parse-produced references are pairwise fresh, so two
non-primitive keys never compare equal. -/
def keyEq : Json → Json → Bool
  | .null, .null => true
  | .bool a, .bool b => a == b
  | .num a, .num b => a == b
  | .str a, .str b => a == b
  | _, _ => false

mutual

/-- JS string coercion `String(v)` as used by template interpolation. -/
def jstr : Json → String
  | .null => "null"
  | .bool b => if b then "true" else "false"
  | .num n => toString n
  | .str s => s
  | .arr xs => jstrList xs
  | .obj _ => "[object Object]"
termination_by structural j => j

/-- `Array.prototype.toString`: elements joined by commas, `null` elements
coerced to the empty string inside `join`. -/
def jstrList : List Json → String
  | [] => ""
  | [.null] => ""
  | [x] => jstr x
  | .null :: xs => "," ++ jstrList xs
  | x :: xs => jstr x ++ "," ++ jstrList xs
termination_by structural xs => xs

end

/-! ## Normalization (mistral.ts, `extractStructuredData` post-processing)

```text
if (parsedData.fields) {
  parsedData.fields.forEach((field, index) => {
    if (!field.id) { field.id = `field_${index + 1}`; }
  });
}
```
A non-object array element would throw on the strict-mode property
assignment (or read), modelled by `none`. -/

/-- Process one element of `parsedData.fields` at 0-based position `i`. -/
def assignFieldId (i : Nat) (fld : Json) : Option Json :=
  if truthyOpt (jget fld "id") then some fld
  else
    match fld with
    | .obj kvs => some (.obj (setKv kvs "id" (.str ("field_" ++ toString (i + 1)))))
    | _ => none

/-- The `forEach` over `parsedData.fields`, threading the 0-based index. -/
def assignIdsList : Nat → List Json → Option (List Json)
  | _, [] => some []
  | i, f :: rest => do
      let f2 ← assignFieldId i f
      let rest2 ← assignIdsList (i + 1) rest
      pure (f2 :: rest2)

/-- `if (parsedData.fields) \x7b ... forEach ... \x7d`: skipped when the
property is falsy; crashes (`none`) when it is truthy but not an array
(`.forEach` is then undefined). -/
def assignIds (j : Json) : Option Json :=
  match jget j "fields" with
  | some (.arr fs) => (assignIdsList 0 fs).map (fun fs2 => jset j "fields" (.arr fs2))
  | some v => if truthy v then none else some j
  | none => some j

/-- `!parsedData.detectedSections || !Array.isArray(parsedData.detectedSections)
|| parsedData.detectedSections.length === 0`. -/
def sectionTrigger (j : Json) : Bool :=
  match jget j "detectedSections" with
  | none => true
  | some ds => !truthy ds || !isArr ds ||
      (match ds with
       | .arr xs => xs.isEmpty
       | _ => true)

/-- `field.section || "Document Content"` (on a non-object element the read
yields `undefined`, hence the default). -/
def sectionKey (fld : Json) : Json :=
  match jget fld "section" with
  | some v => if truthy v then v else .str "Document Content"
  | none => .str "Document Content"

/-- One step of the `Map` build: `sections.has(k) ? push : set(k, [f])`,
preserving insertion order of first key occurrence. -/
def insertGroup : List (Json × List Json) → Json → Json → List (Json × List Json)
  | [], k, f => [(k, [f])]
  | (k2, fs) :: rest, k, f =>
      if keyEq k2 k then (k2, fs ++ [f]) :: rest
      else (k2, fs) :: insertGroup rest k f

/-- The `fields.forEach` loop building the `sections` Map. -/
def groupFields (fs : List Json) : List (Json × List Json) :=
  fs.foldl (fun acc f => insertGroup acc (sectionKey f) f) []

/-- `if (parsedData.fields && Array.isArray(parsedData.fields))`: grouping
only happens for an array-valued `fields` property. -/
def fieldGroups (j : Json) : List (Json × List Json) :=
  match jget j "fields" with
  | some (.arr fs) => groupFields fs
  | _ => []

/-- `sections.set("Document Information", []); sections.set("Content", [])`. -/
def defaultGroups : List (Json × List Json) :=
  [(.str "Document Information", []), (.str "Content", [])]

/-- Apply `f` to each element with its 0-based position, starting at `n`. -/
def idxMap (f : Nat → Json × List Json → Json) : Nat → List (Json × List Json) → List Json
  | _, [] => []
  | n, g :: gs => f n g :: idxMap f (n + 1) gs

/-- The section object built from one Map entry at 0-based position `i`. -/
def mkSection (i : Nat) (g : Json × List Json) : Json :=
  .obj [("id", .str ("section_" ++ toString (i + 1))),
        ("title", g.1),
        ("content", .str (jstr g.1 ++ " section")),
        ("type", .str "field_group"),
        ("preview", .str (if g.2.length > 0
                          then toString g.2.length ++ " fields detected"
                          else "Empty section")),
        ("fields", .arr g.2),
        ("selected", .bool false),
        ("order", .num (Int.ofNat (i + 1)))]

/-- The synthesized `detectedSections` array (mistral.ts lines 355–387). -/
def synthSections (j : Json) : List Json :=
  let gs := fieldGroups j
  idxMap mkSection 0 (if gs.isEmpty then defaultGroups else gs)

/-- The whole post-processing of the parsed AI JSON on the main path of
`extractStructuredData`: id assignment, then section synthesis when
`detectedSections` is absent, not an array, or empty.  `none` models a
thrown `TypeError` (caught by the outer handler as a processing failure). -/
def normalize (j : Json) : Option Json :=
  (assignIds j).map (fun j1 =>
    if sectionTrigger j1 then jset j1 "detectedSections" (.arr (synthSections j1)) else j1)

/-! ## The shared zod schema (`@shared/schema`, `extractedDataSchema`)

Embedded from the schema file:
`dynamicFieldSchema` requires `id label section : string`, scalar `value`,
`type` in an eight-value enum (no table/heading/paragraph), boolean
`required` (defaulted when absent), optional `options : string[]` and
optional `validation` object; `extractedDataSchema` requires
`documentType : string`, `detectedSections : string[]`,
`fields : dynamicFieldSchema[]`, and an optional `metadata` object. -/

/-- zod `z.string().or(z.number()).or(z.boolean()).or(z.null())`. -/
def isScalar : Json → Bool
  | .str _ => true
  | .num _ => true
  | .bool _ => true
  | .null => true
  | _ => false

/-- The `type` enum of `dynamicFieldSchema`. -/
def fieldTypeEnum : List String :=
  ["text", "number", "date", "email", "phone", "textarea", "select", "boolean"]

/-- Optional-string property check (`z.string().optional()`). -/
def optStr (o : Option Json) : Bool :=
  match o with
  | none => true
  | some (.str _) => true
  | some _ => false

/-- Optional-number property check (`z.number().optional()`). -/
def optNum (o : Option Json) : Bool :=
  match o with
  | none => true
  | some (.num _) => true
  | some _ => false

/-- `dynamicFieldSchema.parse` success, as a boolean check. -/
def checkDynamicField (j : Json) : Bool :=
  match j with
  | .obj _ =>
      (match jget j "id" with | some (.str _) => true | _ => false) &&
      (match jget j "label" with | some (.str _) => true | _ => false) &&
      (match jget j "value" with | some v => isScalar v | none => false) &&
      (match jget j "type" with
       | some (.str t) => fieldTypeEnum.contains t
       | _ => false) &&
      (match jget j "section" with | some (.str _) => true | _ => false) &&
      (match jget j "required" with
       | none => true
       | some (.bool _) => true
       | some _ => false) &&
      (match jget j "options" with
       | none => true
       | some (.arr xs) => xs.all (fun x => match x with | .str _ => true | _ => false)
       | some _ => false) &&
      (match jget j "validation" with
       | none => true
       | some (.obj _) =>
           optStr (jget (jget j "validation" |>.getD .null) "pattern") &&
           optNum (jget (jget j "validation" |>.getD .null) "min") &&
           optNum (jget (jget j "validation" |>.getD .null) "max") &&
           optStr (jget (jget j "validation" |>.getD .null) "message")
       | some _ => false)
  | _ => false

/-- `extractedDataSchema.parse` success, as a boolean check. -/
def validateExtractedData (j : Json) : Bool :=
  match j with
  | .obj _ =>
      (match jget j "documentType" with | some (.str _) => true | _ => false) &&
      (match jget j "detectedSections" with
       | some (.arr xs) => xs.all (fun x => match x with | .str _ => true | _ => false)
       | _ => false) &&
      (match jget j "fields" with
       | some (.arr xs) => xs.all checkDynamicField
       | _ => false) &&
      (match jget j "metadata" with
       | none => true
       | some (.obj _) =>
           optStr (jget (jget j "metadata" |>.getD .null) "originalFileName") &&
           optStr (jget (jget j "metadata" |>.getD .null) "extractedAt") &&
           optNum (jget (jget j "metadata" |>.getD .null) "confidence") &&
           optNum (jget (jget j "metadata" |>.getD .null) "totalFields")
       | some _ => false)
  | _ => false

/-- `extractedDataSchema.parse` in `processDocument`: succeeds exactly on
schema-valid values, otherwise throws (a hard failure of the extraction). -/
def zodParse (j : Json) : Option Json :=
  if validateExtractedData j then some j else none

/-! ## Specification-side vocabulary for the grouping claim

`dedupFirst` keeps the first occurrence of every key, in order — the spec's
"insertion order of first occurrence". -/

/-- First occurrence of each key class, in order of first appearance. -/
def dedupFirst : List Json → List Json
  | [] => []
  | x :: xs => x :: dedupFirst (xs.filter (fun y => !keyEq y x))
termination_by l => l.length
decreasing_by
  simp only [List.length_cons]
  exact Nat.lt_succ_of_le (List.length_filter_le _ _)

/-- All section keys of a field list are primitive (self-equal under the
Map key comparison); in particular all string-named sections qualify. -/
def primKeys (fs : List Json) : Bool :=
  fs.all (fun f => keyEq (sectionKey f) (sectionKey f))

/-! ### Concrete inputs used to witness the claims -/

/-- A parsed AI payload with two fields (one missing its id) and no
`detectedSections`. -/
def c1rawAkvs : List (String × Json) :=
  [("documentType", .str "COA"),
   ("fields", .arr [
     .obj [("id", .str "a1"), ("label", .str "A"), ("section", .str "S1")],
     .obj [("label", .str "B"), ("section", .str "S2")]])]

def c1outA : Json := (normalize (.obj c1rawAkvs)).getD .null

def c1j1A : Json := (assignIds (.obj c1rawAkvs)).getD .null

/-- The field list of `c1rawAkvs` after id assignment. -/
def c1fsA : List Json :=
  [.obj [("id", .str "a1"), ("label", .str "A"), ("section", .str "S1")],
   .obj [("label", .str "B"), ("section", .str "S2"), ("id", .str "field_2")]]

/-- A parsed AI payload with no fields and no sections. -/
def c1rawBkvs : List (String × Json) := [("documentType", .str "COA")]

def c1outB : Json := (normalize (.obj c1rawBkvs)).getD .null

/-- The ids of the `fields` array of a payload, in array order. -/
def fieldIds (j : Json) : List (Option Json) :=
  match jget j "fields" with
  | some (.arr fs) => fs.map (fun f => jget f "id")
  | _ => []

/-- C2 failing input: the first field already carries the literal id
`"field_2"`, the second field has no id. -/
def c2rawkvs : List (String × Json) :=
  [("fields", .arr [
     .obj [("id", .str "field_2"), ("label", .str "A")],
     .obj [("label", .str "B")]])]

/-- C3 failing input: a payload of the exact shape the prompt demands — a
table-typed field with a 2-D array value and no `detectedSections`. -/
def c3rawkvs : List (String × Json) :=
  [("documentType", .str "Certificate of Analysis"),
   ("fields", .arr [
     .obj [("id", .str "test_results_table"),
           ("label", .str "Test Results"),
           ("value", .arr [.arr [.str "Test Items", .str "Specifications"],
                           .arr [.str "Purity", .str "97.4%"]]),
           ("type", .str "table"),
           ("section", .str "Test Results"),
           ("required", .bool false)]])]

/-- C3 second failing input: a payload whose single field is fully
conforming to `dynamicFieldSchema` (scalar value, enum type), so only the
synthesized section objects are at fault. -/
def c3raw2kvs : List (String × Json) :=
  [("documentType", .str "Certificate of Analysis"),
   ("fields", .arr [
     .obj [("id", .str "product_name"),
           ("label", .str "Product Name"),
           ("value", .str "Niacinamide"),
           ("type", .str "text"),
           ("section", .str "Product Information"),
           ("required", .bool false)]])]

/-! ## The 429 retry loop of `extractStructuredData` (mistral.ts 247–327)

The chat-completions endpoint is modelled by a script: the list of
responses it returns to successive requests.  A response carries its HTTP
status and what the `choices[0]?.message?.content` / regex / `JSON.parse`
stage yields for its body. -/

/-- What the body of one mock response yields after content extraction. -/
inductive JContent where
  | json (j : Json)
  | noMatch
  | parseFail
deriving Repr

/-- One scripted response of the mock chat-completions endpoint. -/
structure MockResp where
  status : Nat
  content : Option JContent
deriving Repr

/-- `Response.ok`: status in the range 200–299. -/
def respOk (r : MockResp) : Bool := 200 ≤ r.status && r.status < 300

/-- The error taxonomy of `extractStructuredData` (one constructor per
`throw new Error(...)` site, plus a thrown `TypeError` and a mock running
out of scripted responses). -/
inductive ExtErr where
  | aiApi (status : Nat)
  | rateLimitExhausted
  | noContent
  | noJsonFound
  | typeError
  | noResponse
deriving Repr, DecidableEq

/-- `Math.min(1000 * Math.pow(2, attempt), 30000)`. -/
def waitTime (attempt : Nat) : Nat := min (1000 * 2 ^ attempt) 30000

def bump (p : Nat × Except ExtErr Json) : Nat × Except ExtErr Json := (p.1 + 1, p.2)

/-- The `for (attempt = 1; attempt <= 4; attempt++)` retry loop, with
`fuel` remaining attempts (started at 4).  An OK response whose body holds
a JSON match returns after id assignment only (the retry path performs no
section synthesis); an OK response without usable JSON falls through to the
next attempt; a non-429 failure breaks out, landing on the
`"Rate limited and all retries failed"` throw below the loop; running out
of attempts lands on the same throw.  The count is the number of requests
issued inside the loop. -/
def retryLoop : Nat → List MockResp → Nat × Except ExtErr Json
  | 0, _ => (0, .error .rateLimitExhausted)
  | _ + 1, [] => (0, .error .noResponse)
  | fuel + 1, r :: rest =>
      if respOk r then
        match r.content with
        | some (.json j) =>
            (match assignIds j with
             | some j2 => (1, .ok j2)
             | none => (1, .error .typeError))
        | some .parseFail => (1, .error .typeError)
        | _ => bump (retryLoop fuel rest)
      else if r.status == 429 then bump (retryLoop fuel rest)
      else (1, .error .rateLimitExhausted)

/-- The whole request flow of `extractStructuredData` against the scripted
endpoint: first request; on 429 the retry loop; otherwise the non-OK,
no-content, no-JSON checks and, on success, the full normalization.
Returns the number of outbound requests and the outcome. -/
def extractSD (rs : List MockResp) : Nat × Except ExtErr Json :=
  match rs with
  | [] => (0, .error .noResponse)
  | r :: rest =>
      if r.status == 429 then bump (retryLoop 4 rest)
      else if !respOk r then (1, .error (.aiApi r.status))
      else match r.content with
        | none => (1, .error .noContent)
        | some .noMatch => (1, .error .noJsonFound)
        | some .parseFail => (1, .error .typeError)
        | some (.json j) =>
            match normalize j with
            | some out => (1, .ok out)
            | none => (1, .error .typeError)

/-- A 429 response. -/
def r429mock : MockResp := ⟨429, none⟩

/-- A 200 response with a well-formed JSON body. -/
def rOkMock : MockResp :=
  ⟨200, some (.json (.obj [("documentType", .str "COA"),
    ("detectedSections", .arr [.str "a"]), ("fields", .arr [])]))⟩

/-- A 500 response (a non-429 failure). -/
def r500mock : MockResp := ⟨500, none⟩

/-! ## Storage and routes (MemStorage, routes.ts)

`Document` records, partial updates (`Partial<Document>`, presence modelled
by `Option`), the in-memory store as an association list keyed by id, and
the `POST /api/documents/:id/process` handler.  The settings singleton and
its routes follow. -/

/-- A persisted `Document` record.  Timestamps are modelled as `Nat`. -/
structure DocRec where
  id : String
  originalFileName : String
  extractedData : Option Json
  companyData : Option Json
  status : String
  processedAt : Option Nat
  createdAt : Nat
deriving Repr

/-- `Partial<Document>`: outer `Option` is key presence in the update. -/
structure DocUpdates where
  id : Option String
  originalFileName : Option String
  extractedData : Option (Option Json)
  companyData : Option (Option Json)
  status : Option String
  processedAt : Option (Option Nat)
  createdAt : Option Nat
deriving Repr

/-- `MemStorage.updateDocument` merge:
`{ ...existing, ...updates, processedAt: updates.status === "processed"
? new Date() : existing.processedAt }` — note the explicit `processedAt`
override wins over any `processedAt` present in the updates. -/
def updateDocument (existing : DocRec) (u : DocUpdates) (now : Nat) : DocRec :=
  { id := u.id.getD existing.id
    originalFileName := u.originalFileName.getD existing.originalFileName
    extractedData := u.extractedData.getD existing.extractedData
    companyData := u.companyData.getD existing.companyData
    status := u.status.getD existing.status
    processedAt := if u.status = some "processed" then some now else existing.processedAt
    createdAt := u.createdAt.getD existing.createdAt }

/-- `Map.get` on the document store. -/
def alookup {α : Type} : List (String × α) → String → Option α
  | [], _ => none
  | (k2, v) :: rest, k => if k2 = k then some v else alookup rest k

/-- `Map.set` on the document store: replace in place, else append. -/
def aset {α : Type} : List (String × α) → String → α → List (String × α)
  | [], k, v => [(k, v)]
  | (k2, v2) :: rest, k, v =>
      if k2 = k then (k, v) :: rest else (k2, v2) :: aset rest k v

/-- `MemStorage.updateDocument` at store level: `undefined` (no change)
when the id is absent. -/
def storeUpdateDocument (docs : List (String × DocRec)) (id : String)
    (u : DocUpdates) (now : Nat) : List (String × DocRec) :=
  match alookup docs id with
  | none => docs
  | some existing => aset docs id (updateDocument existing u now)

/-- An update carrying only a `status` key. -/
def statusUpdate (s : String) : DocUpdates :=
  ⟨none, none, none, none, some s, none, none⟩

/-- Truthiness of an optional string (JS `!x` on an optional field). -/
def truthyStr : Option String → Bool
  | some s => s ≠ ""
  | none => false

/-- The persisted settings record. -/
structure SettingsRec where
  id : String
  apiKey : Option String
  encryptedApiKey : Option String
  lastTested : Nat
  connectionStatus : String
deriving Repr, DecidableEq

/-- The `insertSettingsSchema` payload (id and lastTested omitted;
`connectionStatus` is accepted but, as the embedding shows, discarded). -/
structure InsertSettings where
  apiKey : Option String
  encryptedApiKey : Option String
  connectionStatus : Option String
deriving Repr, DecidableEq

/-- `x || null` on an optional string field. -/
def jsOrNullStr (o : Option String) : Option String :=
  match o with
  | some s => if s = "" then none else some s
  | none => none

/-- `MemStorage.updateSettings`: replaces the singleton; `lastTested` is
stamped and `connectionStatus` is hard-coded to `"testing"`, whatever the
insert payload carries. -/
def updateSettings (prev : Option SettingsRec) (ins : InsertSettings)
    (freshId : String) (now : Nat) : SettingsRec :=
  { id := match prev with
          | some s => if s.id = "" then freshId else s.id
          | none => freshId
    apiKey := jsOrNullStr ins.apiKey
    encryptedApiKey := jsOrNullStr ins.encryptedApiKey
    lastTested := now
    connectionStatus := "testing" }

/-- `!settings?.apiKey && !settings?.encryptedApiKey` negated: a usable
key is configured. -/
def keyConfigured (settings : Option SettingsRec) : Bool :=
  match settings with
  | some s => truthyStr s.apiKey || truthyStr s.encryptedApiKey
  | none => false

/-- `!!(apiKey || encryptedApiKey)` of a stored record. -/
def hasApiKeyOf (s : SettingsRec) : Bool :=
  truthyStr s.apiKey || truthyStr s.encryptedApiKey

/-- The JSON body of the settings routes: the destructuring
`const { apiKey, encryptedApiKey, ...safeSettings } = settings` keeps
only the non-secret fields, plus the computed `hasApiKey`. -/
inductive SettingsResp where
  | empty
  | full (id : String) (lastTested : Nat) (connectionStatus : String) (hasApiKey : Bool)
deriving Repr, DecidableEq

/-- `GET /api/settings`. -/
def getSettingsRoute (st : Option SettingsRec) : SettingsResp :=
  match st with
  | none => .empty
  | some s => .full s.id s.lastTested s.connectionStatus (hasApiKeyOf s)

/-- `POST /api/settings`: update then respond with the safe projection of
the new record. -/
def postSettingsRoute (st : Option SettingsRec) (ins : InsertSettings)
    (freshId : String) (now : Nat) : Option SettingsRec × SettingsResp :=
  let s2 := updateSettings st ins freshId now
  (some s2, .full s2.id s2.lastTested s2.connectionStatus (hasApiKeyOf s2))

/-- `POST /api/settings/test`: key check, live test (its boolean outcome is
the `connOk` parameter), then
`updateSettings({ ...settings, connectionStatus: ok ? "connected" : "failed" })`. -/
def testSettingsRoute (st : Option SettingsRec) (connOk : Bool)
    (freshId : String) (now : Nat) : Option SettingsRec × (Nat × Option Bool) :=
  match st with
  | none => (st, (400, none))
  | some s =>
      if keyConfigured (some s) = false then (st, (400, none))
      else
        (some (updateSettings (some s)
          ⟨s.apiKey, s.encryptedApiKey,
           some (if connOk then "connected" else "failed")⟩ freshId now),
         (200, some connOk))

/-- The outcome of `mistralService.processDocument` for a given call. -/
inductive ProcOutcome where
  | ok (data : Json)
  | err (msg : String)
deriving Repr

/-- `POST /api/documents/:id/process`: 404 on unknown id; status set to
`"processing"`; 400 when no key is configured (leaving the document in
`"processing"`); on success the document gains the data with status
`"processed"`; any thrown extraction error is caught, the document is
marked `"error"` and a 500 returned.  The second component is the HTTP
status code of the response. -/
def processRoute (docs : List (String × DocRec)) (settings : Option SettingsRec)
    (id : String) (outcome : ProcOutcome) (now : Nat) :
    List (String × DocRec) × Nat :=
  match alookup docs id with
  | none => (docs, 404)
  | some _ =>
      let docs1 := storeUpdateDocument docs id (statusUpdate "processing") now
      if keyConfigured settings = false then (docs1, 400)
      else
        match outcome with
        | .ok data =>
            (storeUpdateDocument docs1 id
              ⟨none, none, some (some data), none, some "processed", none, none⟩ now, 200)
        | .err _ =>
            (storeUpdateDocument docs1 id (statusUpdate "error") now, 500)

/-- C4 concrete store: one freshly uploaded document, no settings. -/
def c4doc : DocRec := ⟨"d1", "a.pdf", none, none, "uploaded", none, 1⟩

def c4docs : List (String × DocRec) := [("d1", c4doc)]

/-- C9 concrete settings: a configured key, previously connected. -/
def c9settings : SettingsRec := ⟨"sid", some "k", none, 0, "connected"⟩

/-- Stored key fields are either absent or non-empty (the invariant
`updateSettings` establishes via `x || null`). -/
def keysNormalized (s : SettingsRec) : Bool :=
  (match s.apiKey with
   | some s2 => s2 ≠ ""
   | none => true) &&
  (match s.encryptedApiKey with
   | some s2 => s2 ≠ ""
   | none => true)

/-! ## Dynamic fields as the client/review and generator see them

`review-step.tsx` and `document-generator.ts` work on the typed
`ExtractedData`/`DynamicField` shape: `value` is a scalar or (for tables) a
2-D string array. -/

/-- A field value: scalar or a 2-D string array (table). -/
inductive FVal where
  | str (s : String)
  | num (n : Int)
  | bool (b : Bool)
  | null
  | table (t : List (List String))
deriving Repr, DecidableEq

/-- `field.layout` (the parts the embedded code reads). -/
structure FieldLayout where
  structureType : Option String
  level : Option Nat
  order : Option Int
deriving Repr, DecidableEq

/-- A dynamic field (`sectionName` embeds the source's `section` property,
which is a reserved word here). -/
structure DField where
  id : String
  label : String
  value : FVal
  type : String
  sectionName : String
  required : Bool
  layout : Option FieldLayout
deriving Repr, DecidableEq

/-- `Array.isArray(field.value)`. -/
def isTableVal : FVal → Bool
  | .table _ => true
  | _ => false

/-- JS truthiness of a field value (`[]` is truthy). -/
def truthyFVal : FVal → Bool
  | .str s => s ≠ ""
  | .num n => n ≠ 0
  | .bool b => b
  | .null => false
  | .table _ => true

/-- `table.filter((_, index) => index !== rowIndex)`. -/
def filterIdxNe {α : Type} : List α → Nat → List α
  | [], _ => []
  | _ :: xs, 0 => xs
  | x :: xs, r + 1 => x :: filterIdxNe xs r

/-- `removeTableRow` from review-step.tsx: on the field with the given id
whose value is an array, row 0 (the header) and tables of at most two rows
are left untouched; otherwise the addressed row is filtered out.  All other
fields are returned as-is. -/
def removeTableRow (fields : List DField) (fieldId : String) (rowIndex : Nat) :
    List DField :=
  fields.map (fun f =>
    if f.id = fieldId then
      match f.value with
      | .table t =>
          if rowIndex = 0 || t.length ≤ 2 then f
          else { f with value := .table (filterIdxNe t rowIndex) }
      | _ => f
    else f)

/-! ## Document generator (document-generator.ts)

The pdfkit/docx side effects are abstracted into a stream of render blocks;
the traversal logic (grouping, ordering, the per-type `switch`, the
`field.value as string[][] || [["Header"], ["Data"]]` coercion) is
embedded from the source.  The constant branding header/footer text cannot
fail and is represented only by the document-info blocks.
`toLocaleDateString` of the external `Date` library is a stand-in. -/

/-- `field.value?.toString()`: `none` models `undefined` (null value). -/
def fvalToStr : FVal → Option String
  | .null => none
  | .str s => some s
  | .num n => some (toString n)
  | .bool b => some (if b then "true" else "false")
  | .table t => some (String.intercalate "," (t.map (String.intercalate ",")))

/-- `x || d` on an optional string. -/
def jsOrStr (o : Option String) (d : String) : String :=
  match o with
  | some s => if s = "" then d else s
  | none => d

/-- Stand-in for the external `new Date(s).toLocaleDateString()`. -/
def toLocaleDate (s : String) : String := s

/-- `field.value as string[][] || [["Header"], ["Data"]]` followed by the
array traversal: falsy values take the default, a table passes through,
and a truthy non-array value makes the subsequent `.forEach`/indexing
throw (`none`). -/
def coerceTable : FVal → Option (List (List String))
  | .table t => some t
  | v => if truthyFVal v then none else some [["Header"], ["Data"]]

/-- One abstract output block of the render layer. -/
inductive RBlock where
  | docInfo (docType : String) (totalFields : Nat)
  | sectionHeader (s : String)
  | tableTitle (s : String)
  | tableGrid (header : Option (List String)) (rows : List (List String))
  | tableRowText (text : String) (isHeader : Bool)
  | headingText (text : String) (size : Nat)
  | paragraphText (text : String)
  | labelValue (label : String) (value : String)
deriving Repr, DecidableEq

/-- `field.layout?.level || 2`. -/
def headingLevel (f : DField) : Nat :=
  match f.layout with
  | some l =>
      match l.level with
      | some lv => if lv = 0 then 2 else lv
      | none => 2
  | none => 2

/-- `field.layout?.order || 0`. -/
def layoutOrder (f : DField) : Int :=
  match f.layout with
  | some l =>
      match l.order with
      | some o => o
      | none => 0
  | none => 0

/-- The default (label/value) rendering shared by both formats:
`value?.toString() || "Not specified"`, boolean → Yes/No by truthiness,
truthy date → locale date string. -/
def defaultDisplayValue (f : DField) : String :=
  if f.type = "boolean" then (if truthyFVal f.value then "Yes" else "No")
  else if f.type = "date" && truthyFVal f.value then
    toLocaleDate ((fvalToStr f.value).getD "")
  else jsOrStr (fvalToStr f.value) "Not specified"

/-- The PDF `switch (field.type)`. -/
def renderFieldPDF (f : DField) : Option (List RBlock) :=
  if f.type = "table" then
    (coerceTable f.value).map (fun t =>
      [.tableTitle f.label, .tableGrid t.head? (t.drop 1)])
  else if f.type = "heading" then
    some [.headingText (jsOrStr (fvalToStr f.value) f.label)
      (max (16 - (headingLevel f : Int)) 10).toNat]
  else if f.type = "paragraph" then
    some [.paragraphText (jsOrStr (fvalToStr f.value) "")]
  else
    some [.labelValue (f.label ++ ":") (defaultDisplayValue f)]

/-- `rowIndex === 0` header flag for the DOCX table text lines. -/
def docxTableRows : Nat → List (List String) → List RBlock
  | _, [] => []
  | i, row :: rest =>
      .tableRowText (String.intercalate " | " row) (i == 0) :: docxTableRows (i + 1) rest

/-- The DOCX `switch (field.type)` (tables become formatted text lines;
the heading level is clamped to 6, falling back to 2). -/
def renderFieldDOCX (f : DField) : Option (List RBlock) :=
  if f.type = "table" then
    (coerceTable f.value).map (fun t => .tableTitle f.label :: docxTableRows 0 t)
  else if f.type = "heading" then
    some [.headingText (jsOrStr (fvalToStr f.value) f.label)
      (max (32 - (headingLevel f : Int) * 4) 16).toNat]
  else if f.type = "paragraph" then
    some [.paragraphText (jsOrStr (fvalToStr f.value) "")]
  else
    some [.labelValue (f.label ++ ": ") (defaultDisplayValue f)]

/-- One step of the `reduce` building `groupedFields` (object keys are the
section names; insertion order of first occurrence, assuming non-numeric
section names as in the data model). -/
def insertGroupS (acc : List (String × List DField)) (k : String) (f : DField) :
    List (String × List DField) :=
  match acc with
  | [] => [(k, [f])]
  | (k2, fs) :: rest =>
      if k2 = k then (k2, fs ++ [f]) :: rest
      else (k2, fs) :: insertGroupS rest k f

/-- `data.fields?.reduce(...) || {}`. -/
def groupBySection (fs : List DField) : List (String × List DField) :=
  fs.foldl (fun acc f => insertGroupS acc f.sectionName f) []

/-- Stable insertion keeping earlier elements first among equal keys
(JS `Array.prototype.sort` is stable; comparator `orderA - orderB`). -/
def insertSorted (x : DField) : List DField → List DField
  | [] => [x]
  | y :: ys => if layoutOrder y ≤ layoutOrder x then y :: insertSorted x ys else x :: y :: ys

/-- `sectionFields.sort((a, b) => orderA - orderB)`. -/
def sortByOrder (fs : List DField) : List DField :=
  fs.foldl (fun acc f => insertSorted f acc) []

/-- Render one section: header line, then the fields in layout order. -/
def renderSection (render : DField → Option (List RBlock))
    (g : String × List DField) : Option (List RBlock) :=
  ((sortByOrder g.2).mapM render).map (fun bss =>
    .sectionHeader g.1.toUpper :: bss.flatten)

/-- `generatePDF`: document-info header then the grouped, ordered fields. -/
def generatePDF (docType : Option String) (fields : List DField) :
    Option (List RBlock) :=
  ((groupBySection fields).mapM (renderSection renderFieldPDF)).map
    (fun bss => .docInfo (jsOrStr docType "Unknown") fields.length :: bss.flatten)

/-- `generateDOCX`: same traversal with the DOCX field renderer. -/
def generateDOCX (docType : Option String) (fields : List DField) :
    Option (List RBlock) :=
  ((groupBySection fields).mapM (renderSection renderFieldDOCX)).map
    (fun bss => .docInfo (jsOrStr docType "Unknown") fields.length :: bss.flatten)

/-- `generateDocument(document, format)`: pdf or (anything else) docx. -/
def generateDocument (docType : Option String) (fields : List DField)
    (format : String) : Option (List RBlock) :=
  if format = "pdf" then generatePDF docType fields else generateDOCX docType fields

/-- Every table-typed field's value is a 2-D string array (the validity the
claim assumes of an `ExtractedData`). -/
def validTables (fs : List DField) : Bool :=
  fs.all (fun f => f.type ≠ "table" || isTableVal f.value)

/-- C10 witness: one field of each of the ten claimed types. -/
def c10fields : List DField :=
  [⟨"f1", "T1", .str "v", "text", "S", false, none⟩,
   ⟨"f2", "T2", .num 5, "number", "S", false, none⟩,
   ⟨"f3", "T3", .str "2024-01-01", "date", "S", false, none⟩,
   ⟨"f4", "T4", .str "a@b.c", "email", "S", false, none⟩,
   ⟨"f5", "T5", .str "123", "phone", "S", false, none⟩,
   ⟨"f6", "T6", .str "long text", "textarea", "S", false, none⟩,
   ⟨"f7", "T7", .table [["h1", "h2"], ["a", "b"]], "table", "S2", false,
     some ⟨some "table", none, some 2⟩⟩,
   ⟨"f8", "T8", .str "Head", "heading", "S2", false,
     some ⟨some "heading", some 2, some 1⟩⟩,
   ⟨"f9", "T9", .str "para", "paragraph", "S2", false, none⟩,
   ⟨"f10", "T10", .bool true, "boolean", "S", false, none⟩]

/-- C7 witness fields: a three-row table (header + 2 data rows) and a text
field. -/
def c7big : DField :=
  ⟨"t1", "T", .table [["h1", "h2"], ["a", "b"], ["c", "d"]], "table", "S", false, none⟩

def c7small : DField :=
  ⟨"t2", "T2", .table [["h1", "h2"], ["a", "b"]], "table", "S", false, none⟩

def c7text : DField := ⟨"x1", "X", .str "v", "text", "S", false, none⟩

def c7fields : List DField := [c7big, c7text]

/-! ## Lemmas about the key comparison and grouping -/

theorem keyEq_symm {a b : Json} (h : keyEq a b = true) : keyEq b a = true := by
  cases a <;> cases b <;> simp_all [keyEq]

theorem keyEq_trans {a b c : Json} (h1 : keyEq a b = true) (h2 : keyEq b c = true) :
    keyEq a c = true := by
  cases a <;> cases b <;> cases c <;> simp_all [keyEq]

theorem mem_of_mem_dedupFirst (xs : List Json) :
    ∀ y ∈ dedupFirst xs, y ∈ xs := by
  induction xs using dedupFirst.induct with
  | case1 => simp [dedupFirst]
  | case2 x rest ih =>
      intro y hy
      rw [dedupFirst] at hy
      rcases List.mem_cons.mp hy with rfl | hy
      · simp
      · exact List.mem_cons_of_mem _ (List.mem_of_mem_filter (ih y hy))

theorem dedupFirst_pairwise (xs : List Json) :
    (dedupFirst xs).Pairwise (fun a b => keyEq a b = false) := by
  induction xs using dedupFirst.induct with
  | case1 => simp [dedupFirst]
  | case2 x rest ih =>
      rw [dedupFirst]
      refine List.Pairwise.cons (fun b hb => ?_) ih
      have hb2 := List.of_mem_filter (mem_of_mem_dedupFirst _ _ hb)
      simp only [Bool.not_eq_eq_eq_not, Bool.not_true] at hb2
      cases hxb : keyEq x b
      · rfl
      · exact absurd (keyEq_symm hxb) (by simp [hb2])

theorem any_filter_keyEq {x x0 : Json} (xs : List Json) (hx0 : keyEq x x0 = false) :
    ((xs.filter (fun y => !keyEq y x0)).any (fun y => keyEq x y)) =
      xs.any (fun y => keyEq x y) := by
  induction xs with
  | nil => rfl
  | cons y ys ih =>
      by_cases hy : keyEq y x0 = true
      · have hxy : keyEq x y = false := by
          cases h2 : keyEq x y
          · rfl
          · exact absurd (keyEq_trans h2 hy) (by simp [hx0])
        simp [List.filter_cons, List.any_cons, hy, hxy, ih]
      · simp only [Bool.not_eq_true] at hy
        simp [List.filter_cons, List.any_cons, hy, ih]

theorem dedupFirst_append_singleton (xs : List Json) (x : Json) :
    dedupFirst (xs ++ [x]) =
      dedupFirst xs ++ (if xs.any (fun y => keyEq x y) then [] else [x]) := by
  induction xs using dedupFirst.induct with
  | case1 => simp [dedupFirst]
  | case2 x0 rest ih =>
      by_cases hx : keyEq x x0 = true
      · have hx2 : (!keyEq x x0) = false := by simp [hx]
        rw [List.cons_append, dedupFirst, List.filter_append]
        simp [List.filter_cons, hx2, dedupFirst, List.any_cons, hx]
      · simp only [Bool.not_eq_true] at hx
        have hx2 : (!keyEq x x0) = true := by simp [hx]
        rw [List.cons_append, dedupFirst, List.filter_append]
        simp only [List.filter_cons, hx2, if_pos, List.filter_nil]
        rw [ih]
        rw [any_filter_keyEq rest hx]
        simp [dedupFirst, List.any_cons, hx]

theorem exists_rep_of_keyEq_mem {k y : Json} (xs : List Json)
    (hy : y ∈ xs) (hk : keyEq k y = true) :
    ∃ z ∈ dedupFirst xs, keyEq k z = true := by
  induction xs using dedupFirst.induct with
  | case1 => simp at hy
  | case2 x0 rest ih =>
      by_cases hx : keyEq k x0 = true
      · exact ⟨x0, by rw [dedupFirst]; simp, hx⟩
      · simp only [Bool.not_eq_true] at hx
        rcases List.mem_cons.mp hy with rfl | hy
        · simp [hk] at hx
        · have hyx0 : keyEq y x0 = false := by
            cases h2 : keyEq y x0
            · rfl
            · exact absurd (keyEq_trans hk h2) (by simp [hx])
          have hy2 : y ∈ rest.filter (fun y2 => !keyEq y2 x0) :=
            List.mem_filter.mpr ⟨hy, by simp [hyx0]⟩
          obtain ⟨z, hz, hkz⟩ := ih hy2
          exact ⟨z, by rw [dedupFirst]; exact List.mem_cons_of_mem _ hz, hkz⟩

theorem exists_first_split {P : Json → Bool} (l : List Json)
    (h : ∃ z ∈ l, P z = true) :
    ∃ l1 z l2, l = l1 ++ z :: l2 ∧ P z = true ∧ ∀ y ∈ l1, P y = false := by
  induction l with
  | nil => simp at h
  | cons x rest ih =>
      by_cases hx : P x = true
      · exact ⟨[], x, rest, by simp, hx, by simp⟩
      · simp only [Bool.not_eq_true] at hx
        obtain ⟨z, hz, hPz⟩ := h
        rcases List.mem_cons.mp hz with rfl | hz
        · simp [hPz] at hx
        · obtain ⟨l1, z2, l2, heq, hP2, hpre⟩ := ih ⟨z, hz, hPz⟩
          refine ⟨x :: l1, z2, l2, by simp [heq], hP2, fun y hy => ?_⟩
          rcases List.mem_cons.mp hy with rfl | hy
          · exact hx
          · exact hpre y hy

theorem insertGroup_of_not_mem {k : Json} {f : Json} (acc : List (Json × List Json))
    (h : ∀ g ∈ acc, keyEq g.1 k = false) :
    insertGroup acc k f = acc ++ [(k, [f])] := by
  induction acc with
  | nil => rfl
  | cons g rest ih =>
      have hg : keyEq g.1 k = false := h g (by simp)
      cases g with
      | mk k2 fs2 =>
          simp only [insertGroup, hg, if_neg, Bool.false_eq_true, not_false_iff,
            List.cons_append, List.cons.injEq, true_and]
          exact ih (fun g2 hg2 => h g2 (by simp [hg2]))

theorem insertGroup_split {k f : Json} (pre : List (Json × List Json))
    (e : Json × List Json) (post : List (Json × List Json))
    (hpre : ∀ g ∈ pre, keyEq g.1 k = false) (he : keyEq e.1 k = true) :
    insertGroup (pre ++ e :: post) k f = pre ++ (e.1, e.2 ++ [f]) :: post := by
  induction pre with
  | nil => cases e with
    | mk k2 fs2 => simp [insertGroup, he]
  | cons g rest ih =>
      have hg : keyEq g.1 k = false := hpre g (by simp)
      cases g with
      | mk k2 fs2 =>
          simp only [List.cons_append, insertGroup, hg, Bool.false_eq_true, if_neg,
            not_false_iff, List.cons.injEq, true_and]
          exact ih (fun g2 hg2 => hpre g2 (by simp [hg2]))

/-- The `Map`-building fold computes exactly the spec-side grouping: keys in
insertion order of first occurrence, each paired with the sub-list of fields
carrying that section key, provided all section keys are primitive values
(in particular strings, the data model's section names). -/
theorem groupFields_eq_spec (fs : List Json) (hp : primKeys fs = true) :
    groupFields fs =
      (dedupFirst (fs.map sectionKey)).map
        (fun k => (k, fs.filter (fun f => keyEq (sectionKey f) k))) := by
  induction fs using List.reverseRecOn with
  | nil => simp [groupFields, dedupFirst]
  | append_singleton fs f ih =>
      have hp2 : primKeys fs = true ∧ keyEq (sectionKey f) (sectionKey f) = true := by
        simpa [primKeys, List.all_append] using hp
      have hstep : groupFields (fs ++ [f]) = insertGroup (groupFields fs) (sectionKey f) f := by
        simp [groupFields, List.foldl_append]
      rw [hstep, ih hp2.1, List.map_append, List.map_singleton,
        dedupFirst_append_singleton]
      by_cases hany : (fs.map sectionKey).any (fun y => keyEq (sectionKey f) y) = true
      · -- the new field's key already occurs: the first matching group gains `f`
        obtain ⟨y, hy, hky⟩ := List.any_eq_true.mp hany
        obtain ⟨z, hz, hkz⟩ := exists_rep_of_keyEq_mem (fs.map sectionKey) hy hky
        obtain ⟨l1, z2, l2, hsplit, hPz, hpre⟩ :=
          @exists_first_split (fun z2 => keyEq (sectionKey f) z2)
            (dedupFirst (fs.map sectionKey)) ⟨z, hz, hkz⟩
        have hpw := dedupFirst_pairwise (fs.map sectionKey)
        rw [hsplit] at hpw
        have hl2 : ∀ y2 ∈ l2, keyEq (sectionKey f) y2 = false := by
          intro y2 hy2
          have hz2y2 : keyEq z2 y2 = false :=
            ((List.pairwise_cons.mp (List.pairwise_append.mp hpw).2.1).1 y2 hy2)
          cases hcase : keyEq (sectionKey f) y2
          · rfl
          · exact absurd (keyEq_trans (keyEq_symm hPz) hcase) (by simp [hz2y2])
        rw [if_pos hany, List.append_nil, hsplit, List.map_append, List.map_cons]
        rw [insertGroup_split (l1.map _)
          (z2, fs.filter (fun f0 => keyEq (sectionKey f0) z2)) (l2.map _)
          (fun g hg => ?side1) (keyEq_symm hPz)]
        case side1 =>
          obtain ⟨y2, hy2, rfl⟩ := List.mem_map.mp hg
          cases hcase : keyEq y2 (sectionKey f)
          · rfl
          · exact absurd (keyEq_symm hcase) (by simp [hpre y2 hy2])
        rw [List.map_append, List.map_cons]
        congr 1
        · exact List.map_congr_left (fun y2 hy2 => by
            simp only [List.filter_append, List.filter_cons, List.filter_nil]
            rw [if_neg ?hcond, List.append_nil]
            case hcond =>
              simp only [Bool.not_eq_true]
              cases hcase : keyEq (sectionKey f) y2
              · rfl
              · exact absurd hcase (by simp [hpre y2 hy2]))
        · congr 1
          · simp only [Prod.mk.injEq, true_and]
            simp [List.filter_append, List.filter_cons, keyEq_symm (keyEq_symm hPz), hPz]
          · exact List.map_congr_left (fun y2 hy2 => by
              simp only [List.filter_append, List.filter_cons, List.filter_nil]
              rw [if_neg (by simp [hl2 y2 hy2]), List.append_nil])
      · -- the new field's key is new: a new group is appended at the end
        simp only [Bool.not_eq_true] at hany
        have hall : ∀ y ∈ fs.map sectionKey, keyEq (sectionKey f) y = false := by
          intro y hy
          cases hcase : keyEq (sectionKey f) y
          · rfl
          · exact absurd (List.any_eq_true.mpr ⟨y, hy, hcase⟩) (by simp [hany])
        rw [if_neg (by simp [hany]), insertGroup_of_not_mem _ (fun g hg => ?side2)]
        case side2 =>
          obtain ⟨y2, hy2, rfl⟩ := List.mem_map.mp hg
          have := hall y2 (mem_of_mem_dedupFirst _ _ hy2)
          cases hcase : keyEq y2 (sectionKey f)
          · rfl
          · exact absurd (keyEq_symm hcase) (by simp [this])
        rw [List.map_append, List.map_singleton]
        congr 1
        · exact List.map_congr_left (fun y2 hy2 => by
            simp only [List.filter_append, List.filter_cons, List.filter_nil]
            rw [if_neg (by simp [hall y2 (mem_of_mem_dedupFirst _ _ hy2)]), List.append_nil])
        · simp only [Prod.mk.injEq, true_and, List.filter_append, List.filter_cons,
            List.filter_nil, hp2.2, if_pos]
          have hfsnil : fs.filter (fun f0 => keyEq (sectionKey f0) (sectionKey f)) = [] := by
            rw [List.filter_eq_nil_iff]
            intro f0 hf0
            have := hall (sectionKey f0) (List.mem_map_of_mem _ hf0)
            cases hcase : keyEq (sectionKey f0) (sectionKey f)
            · simp
            · exact absurd (keyEq_symm hcase) (by simp [this])
          simp [hfsnil]


/-! ## Property lookup after assignment, and shape lemmas -/

theorem lookupKv_setKv_same (kvs : List (String × Json)) (k : String) (v : Json) :
    lookupKv (setKv kvs k v) k = some v := by
  induction kvs with
  | nil => simp [setKv, lookupKv]
  | cons kv rest ih =>
      cases kv with
      | mk k2 v2 =>
          by_cases h : k2 = k
          · simp [setKv, lookupKv, h]
          · simp [setKv, lookupKv, h, ih]

theorem lookupKv_setKv_other (kvs : List (String × Json)) (k k2 : String) (v : Json)
    (h : k2 ≠ k) : lookupKv (setKv kvs k v) k2 = lookupKv kvs k2 := by
  induction kvs with
  | nil =>
      simp only [setKv, lookupKv]
      rw [if_neg (fun hc => h hc.symm)]
  | cons kv rest ih =>
      cases kv with
      | mk k3 v3 =>
          by_cases h3 : k3 = k
          · subst h3
            simp only [setKv, if_pos rfl, lookupKv]
            rw [if_neg (fun hc => h hc.symm), if_neg (fun hc => h hc.symm)]
          · by_cases h4 : k3 = k2
            · subst h4
              simp only [setKv]
              rw [if_neg h3]
              simp [lookupKv]
            · simp [setKv, lookupKv, h3, h4, ih]

theorem jget_jset_same (kvs : List (String × Json)) (k : String) (v : Json) :
    jget (jset (.obj kvs) k v) k = some v := by
  simp [jset, jget, lookupKv_setKv_same]

theorem jget_jset_other (kvs : List (String × Json)) (k k2 : String) (v : Json)
    (h : k2 ≠ k) : jget (jset (.obj kvs) k v) k2 = jget (.obj kvs) k2 := by
  simp [jset, jget, lookupKv_setKv_other _ _ _ _ h]

theorem assignIds_obj {kvs : List (String × Json)} {j1 : Json}
    (h : assignIds (.obj kvs) = some j1) : ∃ kvs1, j1 = .obj kvs1 := by
  unfold assignIds at h
  cases hf : jget (.obj kvs) "fields" with
  | none => rw [hf] at h; exact ⟨kvs, (Option.some.injEq _ _ ▸ h).symm⟩
  | some v =>
      rw [hf] at h
      cases v with
      | arr fs =>
          dsimp only at h
          cases hl : assignIdsList 0 fs with
          | none => rw [hl] at h; simp at h
          | some fs2 =>
              rw [hl] at h
              obtain rfl : jset (Json.obj kvs) "fields" (Json.arr fs2) = j1 := by
                simpa using h
              exact ⟨setKv kvs "fields" (.arr fs2), rfl⟩
      | null => dsimp only at h; simp [truthy] at h; exact ⟨kvs, h.symm⟩
      | bool b =>
          dsimp only at h
          cases b
          · simp [truthy] at h; exact ⟨kvs, h.symm⟩
          · simp [truthy] at h
      | num n =>
          dsimp only at h
          by_cases hn : n = 0
          · subst hn; simp [truthy] at h; exact ⟨kvs, h.symm⟩
          · simp [truthy, hn] at h
      | str s =>
          dsimp only at h
          by_cases hs : s = ""
          · subst hs; simp [truthy] at h; exact ⟨kvs, h.symm⟩
          · simp [truthy, hs] at h
      | obj kvs2 => dsimp only at h; simp [truthy] at h

theorem insertGroup_ne_nil (acc : List (Json × List Json)) (k f : Json) :
    insertGroup acc k f ≠ [] := by
  cases acc with
  | nil => simp [insertGroup]
  | cons g rest =>
      cases g with
      | mk k2 fs2 =>
          by_cases h : keyEq k2 k = true
          · simp [insertGroup, h]
          · simp only [insertGroup, h, if_neg, Bool.not_eq_true]
            simp [Bool.not_eq_true] at h
            simp [h]

theorem foldl_insertGroup_ne_nil (fs : List Json) (acc : List (Json × List Json))
    (h : acc ≠ []) :
    fs.foldl (fun acc2 f => insertGroup acc2 (sectionKey f) f) acc ≠ [] := by
  induction fs generalizing acc with
  | nil => simpa
  | cons f rest ih =>
      exact ih _ (insertGroup_ne_nil _ _ _)

theorem groupFields_ne_nil (fs : List Json) (h : fs ≠ []) : groupFields fs ≠ [] := by
  cases fs with
  | nil => exact absurd rfl h
  | cons f rest =>
      unfold groupFields
      rw [List.foldl_cons]
      exact foldl_insertGroup_ne_nil _ _ (insertGroup_ne_nil _ _ _)

theorem idxMap_ne_nil (f : Nat → Json × List Json → Json) (n : Nat)
    (gs : List (Json × List Json)) (h : gs ≠ []) : idxMap f n gs ≠ [] := by
  cases gs with
  | nil => exact absurd rfl h
  | cons g rest => simp [idxMap]

theorem idxMap_length (f : Nat → Json × List Json → Json) (n : Nat)
    (gs : List (Json × List Json)) : (idxMap f n gs).length = gs.length := by
  induction gs generalizing n with
  | nil => rfl
  | cons g rest ih => simp [idxMap, ih]

theorem idxMap_get (f : Nat → Json × List Json → Json) (n : Nat)
    (gs : List (Json × List Json)) (i : Nat) (hi : i < (idxMap f n gs).length) :
    (idxMap f n gs).get ⟨i, hi⟩ =
      f (n + i) (gs.get ⟨i, by rw [idxMap_length] at hi; exact hi⟩) := by
  induction gs generalizing n i with
  | nil => simp [idxMap] at hi
  | cons g rest ih =>
      cases i with
      | zero => simp [idxMap]
      | succ i2 =>
          simp only [idxMap, List.get_cons_succ]
          rw [ih]
          congr 1
          omega

theorem synthSections_ne_nil (j : Json) : synthSections j ≠ [] := by
  unfold synthSections
  by_cases h : (fieldGroups j).isEmpty = true
  · simp [h, defaultGroups, idxMap]
  · refine idxMap_ne_nil _ _ _ ?_
    simp only [h, if_neg, Bool.not_eq_true]
    intro hc
    rw [hc] at h
    simp at h

theorem jget_mkSection_id (i : Nat) (g : Json × List Json) :
    jget (mkSection i g) "id" = some (.str ("section_" ++ toString (i + 1))) := rfl

theorem jget_mkSection_title (i : Nat) (g : Json × List Json) :
    jget (mkSection i g) "title" = some g.1 := rfl

theorem jget_mkSection_type (i : Nat) (g : Json × List Json) :
    jget (mkSection i g) "type" = some (.str "field_group") := rfl

theorem jget_mkSection_fields (i : Nat) (g : Json × List Json) :
    jget (mkSection i g) "fields" = some (.arr g.2) := rfl

theorem jget_mkSection_order (i : Nat) (g : Json × List Json) :
    jget (mkSection i g) "order" = some (.num (Int.ofNat (i + 1))) := rfl

theorem sectionTrigger_false {j : Json} (h : sectionTrigger j = false) :
    ∃ xs, jget j "detectedSections" = some (.arr xs) ∧ xs ≠ [] := by
  unfold sectionTrigger at h
  cases hds : jget j "detectedSections" with
  | none => rw [hds] at h; simp at h
  | some ds =>
      rw [hds] at h
      cases ds with
      | arr xs =>
          refine ⟨xs, rfl, ?_⟩
          simp only [truthy, isArr, Bool.not_true, Bool.false_or] at h
          intro hc
          subst hc
          simp at h
      | null => simp [truthy, isArr] at h
      | bool b => simp [truthy, isArr] at h
      | num n => simp [truthy, isArr] at h
      | str s => simp [truthy, isArr] at h
      | obj kvs => simp [truthy, isArr] at h


/-! ## Claim C1 -/

/-- `synthSections` unfolded (zeta-reduced form). -/
theorem synthSections_eq (j : Json) :
    synthSections j =
      idxMap mkSection 0
        (if (fieldGroups j).isEmpty then defaultGroups else fieldGroups j) := rfl

theorem isEmpty_false_of_ne_nil {l : List (Json × List Json)} (h : l ≠ []) :
    l.isEmpty = false := by
  cases l with
  | nil => exact absurd rfl h
  | cons a as => rfl

theorem idxMap_getq (f : Nat → Json × List Json → Json) (n : Nat)
    (gs : List (Json × List Json)) (i : Nat) :
    (idxMap f n gs).get? i = (gs.get? i).map (f (n + i)) := by
  induction gs generalizing n i with
  | nil => simp [idxMap]
  | cons g rest ih =>
      cases i with
      | zero => simp [idxMap]
      | succ i2 =>
          simp only [idxMap, List.get?_cons_succ]
          rw [ih, show n + 1 + i2 = n + (i2 + 1) from by omega]

theorem synthSections_elem_props (j : Json) (i : Nat) (s : Json)
    (h : (synthSections j).get? i = some s) :
    jget s "id" = some (.str ("section_" ++ toString (i + 1))) ∧
    jget s "type" = some (.str "field_group") ∧
    jget s "order" = some (.num (Int.ofNat (i + 1))) := by
  rw [synthSections_eq, idxMap_getq] at h
  cases hg : ((if (fieldGroups j).isEmpty then defaultGroups else fieldGroups j).get? i) with
  | none => rw [hg] at h; simp at h
  | some g =>
      rw [hg] at h
      obtain rfl : mkSection (0 + i) g = s := by simpa using h
      simp only [Nat.zero_add]
      exact ⟨jget_mkSection_id _ _, jget_mkSection_type _ _, jget_mkSection_order _ _⟩

/-- **C1**: for every parsed AI JSON object processed by the
`extractStructuredData` post-processing, the result's `detectedSections` is
a non-empty array.  When the synthesis trigger fired (`detectedSections`
absent, not an array, or empty) and fields exist, the sections are exactly
the fields grouped by section name (default `"Document Content"`, via
`sectionKey`) in insertion order of first occurrence (`dedupFirst`), and
every synthesized section carries `id = "section_<n>"`,
`type = "field_group"` and `order` equal to its 1-based position; when
there are no fields either, exactly two sections titled
`"Document Information"` and `"Content"` with empty field lists result. -/
theorem normalize_detectedSections_spec
    (kvs : List (String × Json)) (out : Json)
    (h : normalize (.obj kvs) = some out) :
    (∃ ss, jget out "detectedSections" = some (.arr ss) ∧ ss ≠ [])
    ∧
    (∀ j1 fs, assignIds (.obj kvs) = some j1 → sectionTrigger j1 = true →
      jget j1 "fields" = some (.arr fs) → fs ≠ [] → primKeys fs = true →
      jget out "detectedSections" = some (.arr (idxMap mkSection 0
        ((dedupFirst (fs.map sectionKey)).map
          (fun k => (k, fs.filter (fun f => keyEq (sectionKey f) k)))))))
    ∧
    (∀ j1, assignIds (.obj kvs) = some j1 → sectionTrigger j1 = true →
      ∀ ss, jget out "detectedSections" = some (.arr ss) →
      ∀ i s, ss.get? i = some s →
        jget s "id" = some (.str ("section_" ++ toString (i + 1))) ∧
        jget s "type" = some (.str "field_group") ∧
        jget s "order" = some (.num (Int.ofNat (i + 1))))
    ∧
    (∀ j1, assignIds (.obj kvs) = some j1 → sectionTrigger j1 = true →
      (∀ fs, jget j1 "fields" = some (.arr fs) → fs = []) →
      ∃ s1 s2, jget out "detectedSections" = some (.arr [s1, s2]) ∧
        jget s1 "title" = some (.str "Document Information") ∧
        jget s1 "fields" = some (.arr []) ∧
        jget s2 "title" = some (.str "Content") ∧
        jget s2 "fields" = some (.arr [])) := by
  obtain ⟨j1, hj1, hout⟩ : ∃ j1, assignIds (.obj kvs) = some j1 ∧
      out = (if sectionTrigger j1 then
              jset j1 "detectedSections" (.arr (synthSections j1)) else j1) := by
    unfold normalize at h
    cases ha : assignIds (.obj kvs) with
    | none => rw [ha] at h; simp at h
    | some j0 =>
        rw [ha] at h
        refine ⟨j0, rfl, ?_⟩
        have h2 : (if sectionTrigger j0 then
            jset j0 "detectedSections" (.arr (synthSections j0)) else j0) = out := by
          simpa using h
        exact h2.symm
  obtain ⟨kvs1, rfl⟩ := assignIds_obj hj1
  have htrue : sectionTrigger (.obj kvs1) = true →
      jget out "detectedSections" = some (.arr (synthSections (.obj kvs1))) := by
    intro ht
    rw [hout, if_pos ht]
    exact jget_jset_same _ _ _
  refine ⟨?conj1, ?conj2, ?conj3, ?conj4⟩
  case conj1 =>
    by_cases ht : sectionTrigger (.obj kvs1) = true
    · exact ⟨synthSections (.obj kvs1), htrue ht, synthSections_ne_nil _⟩
    · simp only [Bool.not_eq_true] at ht
      rw [hout, if_neg (by rw [ht]; exact Bool.false_ne_true)]
      exact sectionTrigger_false ht
  case conj2 =>
    intro j1b fs h1b ht hf hne hp
    obtain rfl : j1b = .obj kvs1 := (Option.some.inj (hj1.symm.trans h1b)).symm
    rw [htrue ht, synthSections_eq]
    rw [show fieldGroups (.obj kvs1) = groupFields fs from by unfold fieldGroups; rw [hf]]
    rw [if_neg (by rw [isEmpty_false_of_ne_nil (groupFields_ne_nil fs hne)]; exact Bool.false_ne_true)]
    rw [groupFields_eq_spec fs hp]
  case conj3 =>
    intro j1b h1b ht ss hss i s hgs
    obtain rfl : j1b = .obj kvs1 := (Option.some.inj (hj1.symm.trans h1b)).symm
    have h2 := htrue ht
    rw [hss] at h2
    have hsseq : ss = synthSections (.obj kvs1) := by
      have h3 := Option.some.inj h2
      injection h3
    subst hsseq
    exact synthSections_elem_props _ _ _ hgs
  case conj4 =>
    intro j1b h1b ht hnf
    obtain rfl : j1b = .obj kvs1 := (Option.some.inj (hj1.symm.trans h1b)).symm
    have hfg : fieldGroups (.obj kvs1) = [] := by
      unfold fieldGroups
      cases hf : jget (.obj kvs1) "fields" with
      | none => rfl
      | some v =>
          cases v with
          | arr fs => rw [hnf fs hf]; rfl
          | null => rfl
          | bool b => rfl
          | num n => rfl
          | str s => rfl
          | obj kvs2 => rfl
    refine ⟨mkSection 0 (.str "Document Information", []),
            mkSection 1 (.str "Content", []), ?_, rfl, rfl, rfl, rfl⟩
    rw [htrue ht, synthSections_eq, hfg]
    rfl


/-- Witness for C1: the two concrete payloads above, one with fields (one
id missing), one with none, run through `normalize`. -/
theorem normalize_detectedSections_spec_witness :
    (∃ ss, jget c1outA "detectedSections" = some (.arr ss) ∧ ss ≠ []) ∧
    jget c1outA "detectedSections" = some (.arr (idxMap mkSection 0
      ((dedupFirst (c1fsA.map sectionKey)).map
        (fun k => (k, c1fsA.filter (fun f => keyEq (sectionKey f) k)))))) ∧
    (∃ s1 s2, jget c1outB "detectedSections" = some (.arr [s1, s2]) ∧
      jget s1 "title" = some (.str "Document Information") ∧
      jget s1 "fields" = some (.arr []) ∧
      jget s2 "title" = some (.str "Content") ∧
      jget s2 "fields" = some (.arr [])) := by
  have hA := normalize_detectedSections_spec c1rawAkvs c1outA (by rfl)
  have hB := normalize_detectedSections_spec c1rawBkvs c1outB (by rfl)
  refine ⟨hA.1, ?_, ?_⟩
  · exact hA.2.1 c1j1A c1fsA (by rfl) (by rfl) (by rfl)
      (by simp [c1fsA]) (by rfl)
  · exact hB.2.2.2 (.obj c1rawBkvs) (by rfl) (by rfl)
      (fun fs hf => Option.noConfusion hf)


/-! ## Claims C2 and C3 -/

/-- **C2** (code bug): on the failing input `c2rawkvs` the id-assignment
produces two fields with the same id `"field_2"` — the synthetic id given
to the second (id-less) field collides with the literal id of the first —
although the code comments claim to "Ensure all fields have unique IDs".
The evaluation also shows the synthetic id is `field_<index+1>` and array
order is preserved. -/
theorem assignIds_duplicate_field_id :
    ∃ out, normalize (.obj c2rawkvs) = some out ∧
      fieldIds out = [some (.str "field_2"), some (.str "field_2")] ∧
      (fieldIds out).get? 0 = (fieldIds out).get? 1 := by
  exact ⟨(normalize (.obj c2rawkvs)).getD .null, rfl, rfl, rfl⟩

/-- **C3** (code bug): the normalized output is rejected by the shared
`extractedDataSchema`.  `c3rawkvs` (a table-typed field, exactly what the
prompt instructs the model to produce) fails both on the synthesized
section objects (`detectedSections` must be an array of strings) and on the
field itself (`type: "table"` is not in the enum, a 2-D array is not a
scalar value); `c3raw2kvs` shows that even with a fully schema-conforming
field the synthesized section objects alone make validation fail, so
`processDocument`'s `extractedDataSchema.parse` throws (hard failure). -/
theorem schema_rejects_normalized_output :
    (∃ out, normalize (.obj c3rawkvs) = some out ∧
       validateExtractedData out = false ∧ zodParse out = none) ∧
    (∃ out2, normalize (.obj c3raw2kvs) = some out2 ∧
       validateExtractedData out2 = false ∧ zodParse out2 = none) := by
  exact ⟨⟨(normalize (.obj c3rawkvs)).getD .null, rfl, rfl, rfl⟩,
         ⟨(normalize (.obj c3raw2kvs)).getD .null, rfl, rfl, rfl⟩⟩


/-! ## Claim C5 -/

theorem retryLoop_count_le (fuel : Nat) : ∀ rs, (retryLoop fuel rs).1 ≤ fuel := by
  induction fuel with
  | zero => intro rs; simp [retryLoop]
  | succ fuel ih =>
      intro rs
      cases rs with
      | nil => simp [retryLoop]
      | cons r rest =>
          simp only [retryLoop]
          by_cases hok : respOk r = true
          · rw [if_pos hok]
            cases hc : r.content with
            | none =>
                have := ih rest
                simp [bump]
                omega
            | some c =>
                cases c with
                | json j => cases hj : assignIds j <;> simp [hj]
                | noMatch =>
                    have := ih rest
                    simp [bump]
                    omega
                | parseFail => simp
          · rw [if_neg hok]
            by_cases h429 : (r.status == 429) = true
            · rw [if_pos h429]
              have := ih rest
              simp [bump]
              omega
            · rw [if_neg h429]
              simp

theorem retryLoop_all429 (fuel : Nat) :
    ∀ rs, (∀ r ∈ rs, r.status = 429) → fuel ≤ rs.length →
      (retryLoop fuel rs).2 = .error .rateLimitExhausted := by
  induction fuel with
  | zero => intro rs h1 h2; simp [retryLoop]
  | succ fuel ih =>
      intro rs h1 h2
      cases rs with
      | nil => simp at h2
      | cons r rest =>
          have hst : r.status = 429 := h1 r (by simp)
          have hok : respOk r = false := by simp [respOk, hst]
          simp only [retryLoop, hok, Bool.false_eq_true, if_neg, not_false_iff,
            hst, beq_self_eq_true, if_pos, bump]
          exact ih rest (fun r2 hr2 => h1 r2 (by simp [hr2]))
            (by simpa using Nat.le_of_succ_le_succ h2)

/-- **C5 counterexample**: the endpoint answers 429, then 500, then (if it
were asked again) a perfectly good 200.  The loop aborts after the 500 —
only 2 requests go out — but the surfaced error is the generic
rate-limit-exhausted error, not the original 500 (`aiApi 500`) error that
the claim says is propagated. -/
theorem retry_nonRateLimit_error_not_propagated :
    extractSD [r429mock, r500mock, rOkMock] = (2, .error .rateLimitExhausted) ∧
    ExtErr.rateLimitExhausted ≠ ExtErr.aiApi 500 := by
  exact ⟨rfl, by decide⟩

/-- **C5 amended**: a 429 followed by a 429 and then a 200 with valid JSON
succeeds after exactly 3 outbound requests; delays follow the capped
doubling schedule (2s, 4s, 8s, 16s, capped at 30s); at most 5 requests are
ever issued (1 + 4 retries); all-429 scripts exhaust into the
rate-limit-exhausted error; and a non-429 failure during the retry loop
aborts the loop immediately, but raises the same rate-limit-exhausted error
instead of propagating the original error. -/
theorem extractSD_retry_backoff_spec :
    (∃ j, extractSD [r429mock, r429mock, rOkMock] = (3, .ok j))
    ∧ [waitTime 1, waitTime 2, waitTime 3, waitTime 4] = [2000, 4000, 8000, 16000]
    ∧ (∀ a, waitTime a ≤ 30000)
    ∧ (∀ rs, (extractSD rs).1 ≤ 5)
    ∧ (∀ rs, (∀ r ∈ rs, r.status = 429) → 5 ≤ rs.length →
        (extractSD rs).2 = .error .rateLimitExhausted)
    ∧ (∀ r b rest, r.status = 429 → respOk b = false → b.status ≠ 429 →
        extractSD (r :: b :: rest) = (2, .error .rateLimitExhausted)) := by
  refine ⟨⟨_, rfl⟩, by decide, fun a => Nat.min_le_right _ _, ?bound, ?all429, ?abort⟩
  case bound =>
    intro rs
    cases rs with
    | nil => simp [extractSD]
    | cons r rest =>
        simp only [extractSD]
        by_cases h429 : (r.status == 429) = true
        · rw [if_pos h429]
          have := retryLoop_count_le 4 rest
          simp [bump]
          omega
        · rw [if_neg h429]
          by_cases hok : respOk r = true
          · simp only [hok, Bool.not_true, Bool.false_eq_true, if_neg, not_false_iff]
            cases hc : r.content with
            | none => simp
            | some c =>
                cases c with
                | json j => cases hj : normalize j <;> simp [hj]
                | noMatch => simp
                | parseFail => simp
          · simp only [Bool.not_eq_true] at hok
            simp [hok]
  case all429 =>
    intro rs h1 h2
    cases rs with
    | nil => simp at h2
    | cons r rest =>
        have hst : r.status = 429 := h1 r (by simp)
        simp only [extractSD, hst, beq_self_eq_true, if_pos, bump]
        exact retryLoop_all429 4 rest (fun r2 hr2 => h1 r2 (by simp [hr2]))
          (by simpa using Nat.le_of_succ_le_succ h2)
  case abort =>
    intro r b rest hst hok hb
    have hb2 : (b.status == 429) = false := by simpa using hb
    simp only [extractSD, hst, beq_self_eq_true, if_pos, retryLoop, hok,
      Bool.false_eq_true, if_neg, not_false_iff, hb2, bump]

/-- Witness for the amended C5 at concrete scripts: five straight 429s
exhaust into the rate-limit error, and 429-then-500 aborts after 2
requests with the rate-limit error. -/
theorem extractSD_retry_backoff_spec_witness :
    (extractSD [r429mock, r429mock, r429mock, r429mock, r429mock]).2 =
      .error .rateLimitExhausted ∧
    extractSD [r429mock, r500mock] = (2, .error .rateLimitExhausted) := by
  refine ⟨extractSD_retry_backoff_spec.2.2.2.2.1 _ ?_ (by decide),
          extractSD_retry_backoff_spec.2.2.2.2.2 r429mock r500mock [] rfl (by decide)
            (by decide)⟩
  intro r hr
  fin_cases hr <;> rfl


/-! ## Claims C4, C6, C8, C9 -/

theorem alookup_aset_same {α : Type} (l : List (String × α)) (k : String) (v : α) :
    alookup (aset l k v) k = some v := by
  induction l with
  | nil => simp [aset, alookup]
  | cons kv rest ih =>
      cases kv with
      | mk k2 v2 =>
          by_cases h : k2 = k
          · simp [aset, alookup, h]
          · simp [aset, alookup, h, ih]

theorem storeUpdate_lookup (docs : List (String × DocRec)) (id : String) (d : DocRec)
    (u : DocUpdates) (now : Nat) (hd : alookup docs id = some d) :
    alookup (storeUpdateDocument docs id u now) id = some (updateDocument d u now) := by
  unfold storeUpdateDocument
  rw [hd]
  exact alookup_aset_same _ _ _

/-- **C6**: `updateDocument` replaces exactly the fields present in the
updates and keeps the rest, except `processedAt`, which is freshly stamped
exactly when the update sets `status` to `"processed"` (whatever the prior
status was) and keeps its prior value otherwise; hence (for a fresh stamp)
`processedAt` changes if and only if the update sets status to processed. -/
theorem updateDocument_frame_spec (existing : DocRec) (u : DocUpdates) (now : Nat) :
    ((∀ v, u.id = some v → (updateDocument existing u now).id = v) ∧
     (u.id = none → (updateDocument existing u now).id = existing.id))
    ∧
    ((∀ v, u.originalFileName = some v →
        (updateDocument existing u now).originalFileName = v) ∧
     (u.originalFileName = none →
        (updateDocument existing u now).originalFileName = existing.originalFileName))
    ∧
    ((∀ v, u.extractedData = some v → (updateDocument existing u now).extractedData = v) ∧
     (u.extractedData = none →
        (updateDocument existing u now).extractedData = existing.extractedData))
    ∧
    ((∀ v, u.companyData = some v → (updateDocument existing u now).companyData = v) ∧
     (u.companyData = none →
        (updateDocument existing u now).companyData = existing.companyData))
    ∧
    ((∀ v, u.status = some v → (updateDocument existing u now).status = v) ∧
     (u.status = none → (updateDocument existing u now).status = existing.status))
    ∧
    ((∀ v, u.createdAt = some v → (updateDocument existing u now).createdAt = v) ∧
     (u.createdAt = none → (updateDocument existing u now).createdAt = existing.createdAt))
    ∧
    (u.status = some "processed" → (updateDocument existing u now).processedAt = some now)
    ∧
    (u.status ≠ some "processed" →
      (updateDocument existing u now).processedAt = existing.processedAt)
    ∧
    (some now ≠ existing.processedAt →
      ((updateDocument existing u now).processedAt ≠ existing.processedAt ↔
        u.status = some "processed")) := by
  refine ⟨⟨fun v hv => by simp [updateDocument, hv], fun hv => by simp [updateDocument, hv]⟩,
          ⟨fun v hv => by simp [updateDocument, hv], fun hv => by simp [updateDocument, hv]⟩,
          ⟨fun v hv => by simp [updateDocument, hv], fun hv => by simp [updateDocument, hv]⟩,
          ⟨fun v hv => by simp [updateDocument, hv], fun hv => by simp [updateDocument, hv]⟩,
          ⟨fun v hv => by simp [updateDocument, hv], fun hv => by simp [updateDocument, hv]⟩,
          ⟨fun v hv => by simp [updateDocument, hv], fun hv => by simp [updateDocument, hv]⟩,
          fun hv => by simp [updateDocument, hv],
          fun hv => by simp [updateDocument, hv],
          fun hfresh => ?_⟩
  constructor
  · intro hchg
    by_cases hs : u.status = some "processed"
    · exact hs
    · exact absurd (by simp [updateDocument, hs]) hchg
  · intro hs
    simp only [updateDocument, hs, if_pos]
    exact hfresh

/-- Witness for C6: a concrete update that sets status to processed (on a
document never processed before) stamps `processedAt`, changes it, and
leaves `createdAt` and `originalFileName` untouched. -/
theorem updateDocument_frame_spec_witness :
    (updateDocument ⟨"d1", "a.pdf", none, none, "uploaded", none, 1⟩
        (statusUpdate "processed") 5).processedAt = some 5 ∧
    ((updateDocument ⟨"d1", "a.pdf", none, none, "uploaded", none, 1⟩
        (statusUpdate "processed") 5).processedAt ≠ (none : Option Nat)) ∧
    (updateDocument ⟨"d1", "a.pdf", none, none, "uploaded", none, 1⟩
        (statusUpdate "processed") 5).originalFileName = "a.pdf" ∧
    (updateDocument ⟨"d1", "a.pdf", none, none, "uploaded", none, 1⟩
        (statusUpdate "error") 5).processedAt = (none : Option Nat) := by
  have h := updateDocument_frame_spec ⟨"d1", "a.pdf", none, none, "uploaded", none, 1⟩
    (statusUpdate "processed") 5
  have h2 := updateDocument_frame_spec ⟨"d1", "a.pdf", none, none, "uploaded", none, 1⟩
    (statusUpdate "error") 5
  refine ⟨h.2.2.2.2.2.2.1 rfl, ?_, h.2.1.2 rfl, h2.2.2.2.2.2.2.2.1 (by decide)⟩
  exact ((h.2.2.2.2.2.2.2.2 (by decide)).mpr rfl)

/-- **C4 counterexample**: with an existing uploaded document and no API
key configured, the process route answers 400 (not a 5xx) and leaves the
document in status `"processing"` (not `"error"`), refuting the claim for
the missing-API-key failure. -/
theorem process_missing_key_is_400_processing :
    (processRoute c4docs none "d1" (.ok (.obj [])) 5).2 = 400 ∧
    ((alookup (processRoute c4docs none "d1" (.ok (.obj [])) 5).1 "d1").map
      (fun d => d.status)) = some "processing" ∧
    ¬ 500 ≤ (processRoute c4docs none "d1" (.ok (.obj [])) 5).2 ∧
    ((alookup (processRoute c4docs none "d1" (.ok (.obj [])) 5).1 "d1").map
      (fun d => d.status)) ≠ some "error" := by
  exact ⟨rfl, rfl, by decide, by decide⟩

/-- **C4 amended**: for an existing document, every extraction failure
thrown on the extraction path (OCR failure, insufficient text, AI error,
no JSON, schema validation) yields a 500, marks the document `"error"` and
leaves `extractedData` unchanged; the missing-API-key case instead returns
400 and leaves the document in status `"processing"` (still with
`extractedData` unchanged); a success stores the data with status
`"processed"`. -/
theorem processRoute_error_policy (docs : List (String × DocRec))
    (settings : Option SettingsRec) (id : String) (d : DocRec) (now : Nat) :
    (∀ msg, alookup docs id = some d → keyConfigured settings = true →
       (processRoute docs settings id (.err msg) now).2 = 500 ∧
       (alookup (processRoute docs settings id (.err msg) now).1 id).map
         (fun d2 => d2.status) = some "error" ∧
       (alookup (processRoute docs settings id (.err msg) now).1 id).map
         (fun d2 => d2.extractedData) = some d.extractedData)
    ∧
    (∀ outcome, alookup docs id = some d → keyConfigured settings = false →
       (processRoute docs settings id outcome now).2 = 400 ∧
       (alookup (processRoute docs settings id outcome now).1 id).map
         (fun d2 => d2.status) = some "processing" ∧
       (alookup (processRoute docs settings id outcome now).1 id).map
         (fun d2 => d2.extractedData) = some d.extractedData)
    ∧
    (∀ data, alookup docs id = some d → keyConfigured settings = true →
       (processRoute docs settings id (.ok data) now).2 = 200 ∧
       (alookup (processRoute docs settings id (.ok data) now).1 id).map
         (fun d2 => d2.status) = some "processed" ∧
       (alookup (processRoute docs settings id (.ok data) now).1 id).map
         (fun d2 => d2.extractedData) = some (some data) ∧
       (alookup (processRoute docs settings id (.ok data) now).1 id).map
         (fun d2 => d2.processedAt) = some (some now)) := by
  have hproc : ∀ hd : alookup docs id = some d,
      alookup (storeUpdateDocument docs id (statusUpdate "processing") now) id =
        some (updateDocument d (statusUpdate "processing") now) :=
    fun hd => storeUpdate_lookup docs id d _ now hd
  refine ⟨?err, ?nokey, ?ok⟩
  case err =>
    intro msg hd hk
    unfold processRoute
    rw [hd, hk]
    simp only [Bool.true_eq_false, if_neg, not_false_iff]
    refine ⟨trivial, ?_, ?_⟩ <;>
      · rw [storeUpdate_lookup _ _ _ _ _ (hproc hd)]
        rfl
  case nokey =>
    intro outcome hd hk
    unfold processRoute
    rw [hd, hk]
    simp only [if_pos]
    refine ⟨trivial, ?_, ?_⟩ <;>
      · rw [hproc hd]
        rfl
  case ok =>
    intro data hd hk
    unfold processRoute
    rw [hd, hk]
    simp only [Bool.true_eq_false, if_neg, not_false_iff]
    refine ⟨trivial, ?_, ?_, ?_⟩ <;>
      · rw [storeUpdate_lookup _ _ _ _ _ (hproc hd)]
        rfl

/-- Witness for the amended C4: concrete error and success calls with a
configured key. -/
theorem processRoute_error_policy_witness :
    (processRoute c4docs (some c9settings) "d1" (.err "boom") 5).2 = 500 ∧
    (alookup (processRoute c4docs (some c9settings) "d1" (.err "boom") 5).1 "d1").map
      (fun d2 => d2.status) = some "error" ∧
    (alookup (processRoute c4docs (some c9settings) "d1" (.err "boom") 5).1 "d1").map
      (fun d2 => d2.extractedData) = some (none : Option Json) ∧
    (processRoute c4docs (some c9settings) "d1" (.ok (.obj [])) 5).2 = 200 := by
  have h := processRoute_error_policy c4docs (some c9settings) "d1" c4doc 5
  obtain ⟨h1, h2, h3⟩ := h.1 "boom" rfl rfl
  exact ⟨h1, h2, h3, (h.2.2 (.obj []) rfl rfl).1⟩

/-- **C9** (code bug): `MemStorage.updateSettings` hard-codes
`connectionStatus := "testing"`, discarding the `"connected"` /
`"failed"` value the test route passes in, so after a test call the
persisted status is still `"testing"` — while the route's own code (and
the claim) intend it to become `"connected"` or `"failed"`.  The
key-update half of the claim does hold: every settings update leaves the
stored status `"testing"`. -/
theorem updateSettings_discards_connection_status :
    (∀ st ins freshId now, (updateSettings st ins freshId now).connectionStatus = "testing")
    ∧
    (∃ st2, testSettingsRoute (some c9settings) true "fresh" 7 = (some st2, (200, some true)) ∧
      st2.connectionStatus = "testing" ∧ st2.connectionStatus ≠ "connected")
    ∧
    (∃ st3, testSettingsRoute (some c9settings) false "fresh" 7 = (some st3, (200, some false)) ∧
      st3.connectionStatus = "testing" ∧ st3.connectionStatus ≠ "failed") := by
  refine ⟨fun st ins freshId now => rfl, ⟨_, rfl, rfl, by decide⟩, ⟨_, rfl, rfl, by decide⟩⟩

/-- **C8**: the settings responses are computed only from non-secret fields
plus the two key-presence bits, so two stores differing only in the key
strings yield identical bodies (no key material can occur in them);
`hasApiKey` is true exactly when a key field is set (stored keys are
none-or-non-empty, an invariant `updateSettings` maintains); and posting a
key then reading settings yields `hasApiKey = true` with a body independent
of the posted key string. -/
theorem settings_secret_non_exposure :
    (∀ s1 s2 : SettingsRec, s1.id = s2.id → s1.lastTested = s2.lastTested →
       s1.connectionStatus = s2.connectionStatus →
       truthyStr s1.apiKey = truthyStr s2.apiKey →
       truthyStr s1.encryptedApiKey = truthyStr s2.encryptedApiKey →
       getSettingsRoute (some s1) = getSettingsRoute (some s2))
    ∧
    (∀ s : SettingsRec, keysNormalized s = true →
       getSettingsRoute (some s) =
         .full s.id s.lastTested s.connectionStatus
           (s.apiKey.isSome || s.encryptedApiKey.isSome))
    ∧
    (∀ st ins freshId now, keysNormalized (updateSettings st ins freshId now) = true)
    ∧
    (∀ st freshId now (k : String), k ≠ "" →
       getSettingsRoute (postSettingsRoute st ⟨some k, none, none⟩ freshId now).1 =
         .full (updateSettings st ⟨some k, none, none⟩ freshId now).id now "testing" true)
    ∧
    (∀ st freshId now (k1 k2 : String), k1 ≠ "" → k2 ≠ "" →
       getSettingsRoute (postSettingsRoute st ⟨some k1, none, none⟩ freshId now).1 =
         getSettingsRoute (postSettingsRoute st ⟨some k2, none, none⟩ freshId now).1 ∧
       (postSettingsRoute st ⟨some k1, none, none⟩ freshId now).2 =
         (postSettingsRoute st ⟨some k2, none, none⟩ freshId now).2) := by
  refine ⟨?ninf, ?hask, ?norm, ?post, ?indep⟩
  case ninf =>
    intro s1 s2 h1 h2 h3 h4 h5
    simp [getSettingsRoute, hasApiKeyOf, h1, h2, h3, h4, h5]
  case hask =>
    intro s hs
    simp only [getSettingsRoute, SettingsResp.full.injEq, true_and]
    unfold keysNormalized at hs
    unfold hasApiKeyOf
    cases ha : s.apiKey with
    | none => cases he : s.encryptedApiKey with
      | none => simp [truthyStr]
      | some e =>
          rw [ha, he] at hs
          simp only [Bool.and_eq_true, decide_eq_true_eq] at hs
          simp [truthyStr, hs.2]
    | some a =>
        rw [ha] at hs
        simp only [Bool.and_eq_true, decide_eq_true_eq] at hs
        simp [truthyStr, hs.1]
  case norm =>
    intro st ins freshId now
    unfold keysNormalized updateSettings
    cases ha : ins.apiKey with
    | none => cases he : ins.encryptedApiKey with
      | none => rfl
      | some e =>
          by_cases hee : e = "" <;> simp [jsOrNullStr, hee]
    | some a =>
        cases he : ins.encryptedApiKey with
        | none => by_cases haa : a = "" <;> simp [jsOrNullStr, haa]
        | some e =>
            by_cases haa : a = "" <;> by_cases hee : e = "" <;>
              simp [jsOrNullStr, haa, hee]
  case post =>
    intro st freshId now k hk
    simp [postSettingsRoute, getSettingsRoute, updateSettings, hasApiKeyOf,
      jsOrNullStr, truthyStr, hk]
  case indep =>
    intro st freshId now k1 k2 hk1 hk2
    constructor
    · simp [postSettingsRoute, getSettingsRoute, updateSettings, hasApiKeyOf,
        jsOrNullStr, truthyStr, hk1, hk2]
    · simp [postSettingsRoute, updateSettings, hasApiKeyOf,
        jsOrNullStr, truthyStr, hk1, hk2]

/-- Witness for C8: posting the key `"X"` then reading settings gives
`hasApiKey = true` and the same body as posting `"Y"`. -/
theorem settings_secret_non_exposure_witness :
    getSettingsRoute (postSettingsRoute none ⟨some "X", none, none⟩ "id1" 3).1 =
      .full "id1" 3 "testing" true ∧
    getSettingsRoute (postSettingsRoute none ⟨some "X", none, none⟩ "id1" 3).1 =
      getSettingsRoute (postSettingsRoute none ⟨some "Y", none, none⟩ "id1" 3).1 := by
  refine ⟨?_, (settings_secret_non_exposure.2.2.2.2 none "id1" 3 "X" "Y"
    (by decide) (by decide)).1⟩
  have h := settings_secret_non_exposure.2.2.2.1 none "id1" 3 "X" (by decide)
  simpa using h


/-! ## Claim C7 -/

theorem filterIdxNe_eq_take_drop {α : Type} (l : List α) (r : Nat) (h : r < l.length) :
    filterIdxNe l r = l.take r ++ l.drop (r + 1) := by
  induction l generalizing r with
  | nil => simp at h
  | cons x xs ih =>
      cases r with
      | zero => simp [filterIdxNe]
      | succ r2 =>
          simp only [filterIdxNe, List.take_succ_cons, List.drop_succ_cons,
            List.cons_append, List.cons.injEq, true_and]
          exact ih r2 (by simpa using h)

theorem take_append_headq {α : Type} (t : List α) (r : Nat) (hr : 0 < r)
    (hlen : 0 < t.length) (rest : List α) :
    (t.take r ++ rest).head? = t.head? := by
  cases t with
  | nil => simp at hlen
  | cons x xs =>
      cases r with
      | zero => omega
      | succ r2 => simp [List.take_succ_cons]

/-- **C7**: `removeTableRow` with row index 0 is the identity on the whole
field list; on a matching table field holding at most two rows it is a
no-op; otherwise exactly the addressed row is removed — the result is the
rows before it plus the rows after it, one row shorter, with the header row
(index 0) preserved; fields with a different id are untouched and the list
length never changes. -/
theorem removeTableRow_spec (fields : List DField) (fieldId : String) :
    (removeTableRow fields fieldId 0 = fields)
    ∧ (∀ r i f t, fields.get? i = some f → f.id = fieldId → f.value = .table t →
        t.length ≤ 2 → (removeTableRow fields fieldId r).get? i = some f)
    ∧ (∀ r i f t, fields.get? i = some f → f.id = fieldId → f.value = .table t →
        0 < r → r < t.length → 2 < t.length →
        (removeTableRow fields fieldId r).get? i =
          some { f with value := .table (t.take r ++ t.drop (r + 1)) } ∧
        (t.take r ++ t.drop (r + 1)).length + 1 = t.length ∧
        (t.take r ++ t.drop (r + 1)).head? = t.head?)
    ∧ (∀ r i f, fields.get? i = some f → f.id ≠ fieldId →
        (removeTableRow fields fieldId r).get? i = some f)
    ∧ (∀ r, (removeTableRow fields fieldId r).length = fields.length) := by
  refine ⟨?zero, ?floor, ?del, ?others, ?len⟩
  case zero =>
    induction fields with
    | nil => rfl
    | cons x xs ih =>
        unfold removeTableRow at ih ⊢
        simp only [List.map_cons, List.cons.injEq]
        refine ⟨?_, ih⟩
        by_cases hid : x.id = fieldId
        · simp only [hid, if_pos]
          cases hv : x.value <;> simp
        · simp [hid]
  case floor =>
    intro r i f t hi hid hv hlen
    unfold removeTableRow
    rw [List.get?_map, hi]
    simp only [Option.map_some']
    by_cases hr : r = 0
    · simp [hid, hv, hr]
    · simp [hid, hv, hr, hlen]
  case del =>
    intro r i f t hi hid hv hr hrlen hlen
    have h1 : (removeTableRow fields fieldId r).get? i =
        some { f with value := .table (filterIdxNe t r) } := by
      unfold removeTableRow
      rw [List.get?_map, hi]
      simp only [Option.map_some']
      have hr0 : r ≠ 0 := by omega
      have hl2 : ¬ t.length ≤ 2 := by omega
      simp [hid, hv, hr0, hl2]
    rw [filterIdxNe_eq_take_drop t r hrlen] at h1
    refine ⟨h1, ?_, take_append_headq t r hr (by omega) _⟩
    have htake : (t.take r).length = r := by
      rw [List.length_take]
      omega
    have hdrop : (t.drop (r + 1)).length = t.length - (r + 1) := List.length_drop _ _
    rw [List.length_append, htake, hdrop]
    omega
  case others =>
    intro r i f hi hid
    unfold removeTableRow
    rw [List.get?_map, hi]
    simp [hid]
  case len =>
    intro r
    unfold removeTableRow
    exact List.length_map _ _

/-- Witness for C7 on concrete tables: row 0 is a no-op, a two-row table is
a no-op, deleting row 1 of a three-row table removes exactly that row and
keeps the header, and the text field is untouched. -/
theorem removeTableRow_spec_witness :
    removeTableRow c7fields "t1" 0 = c7fields ∧
    (removeTableRow [c7small] "t2" 1).get? 0 = some c7small ∧
    (removeTableRow c7fields "t1" 1).get? 0 =
      some { c7big with value := .table ([["h1", "h2"], ["a", "b"], ["c", "d"]].take 1 ++
        [["h1", "h2"], ["a", "b"], ["c", "d"]].drop 2) } ∧
    (removeTableRow c7fields "t1" 1).get? 1 = some c7text := by
  refine ⟨(removeTableRow_spec c7fields "t1").1,
          (removeTableRow_spec [c7small] "t2").2.1 1 0 c7small _ rfl rfl rfl (by decide),
          ((removeTableRow_spec c7fields "t1").2.2.1 1 0 c7big _ rfl rfl rfl
            (by decide) (by decide) (by decide)).1,
          (removeTableRow_spec c7fields "t1").2.2.2.1 1 1 c7text rfl (by decide)⟩

/-! ## Claim C10 -/

theorem insertSorted_mem (x : DField) (l : List DField) :
    ∀ y ∈ insertSorted x l, y = x ∨ y ∈ l := by
  induction l with
  | nil => intro y hy; simp [insertSorted] at hy; exact Or.inl hy
  | cons z zs ih =>
      intro y hy
      unfold insertSorted at hy
      by_cases hc : layoutOrder z ≤ layoutOrder x
      · rw [if_pos hc] at hy
        rcases List.mem_cons.mp hy with rfl | hy
        · exact Or.inr (by simp)
        · rcases ih y hy with h | h
          · exact Or.inl h
          · exact Or.inr (by simp [h])
      · rw [if_neg hc] at hy
        rcases List.mem_cons.mp hy with rfl | hy
        · exact Or.inl rfl
        · exact Or.inr hy

theorem foldl_insertSorted_mem (P : DField → Prop) :
    ∀ (fs acc : List DField), (∀ y ∈ acc, P y) → (∀ f ∈ fs, P f) →
      ∀ y ∈ fs.foldl (fun a f => insertSorted f a) acc, P y := by
  intro fs
  induction fs with
  | nil => intro acc hacc hfs y hy; exact hacc y hy
  | cons f rest ih =>
      intro acc hacc hfs y hy
      refine ih (insertSorted f acc) ?_ (fun g hg => hfs g (by simp [hg])) y hy
      intro z hz
      rcases insertSorted_mem f acc z hz with rfl | hz
      · exact hfs z (by simp)
      · exact hacc z hz

theorem sortByOrder_mem (fs : List DField) (P : DField → Prop)
    (hfs : ∀ f ∈ fs, P f) : ∀ y ∈ sortByOrder fs, P y :=
  foldl_insertSorted_mem P fs [] (by simp) hfs

theorem insertGroupS_mem (acc : List (String × List DField)) (k : String) (f : DField) :
    ∀ g ∈ insertGroupS acc k f, ∀ y ∈ g.2, (∃ g0 ∈ acc, y ∈ g0.2) ∨ y = f := by
  induction acc with
  | nil =>
      intro g hg y hy
      simp only [insertGroupS, List.mem_singleton] at hg
      subst hg
      simp only [List.mem_singleton] at hy
      exact Or.inr hy
  | cons g0 rest ih =>
      intro g hg y hy
      cases g0 with
      | mk k2 fs2 =>
          unfold insertGroupS at hg
          by_cases hc : k2 = k
          · rw [if_pos hc] at hg
            rcases List.mem_cons.mp hg with rfl | hg
            · rcases List.mem_append.mp hy with hy | hy
              · exact Or.inl ⟨(k2, fs2), by simp, hy⟩
              · simp only [List.mem_singleton] at hy
                exact Or.inr hy
            · exact Or.inl ⟨g, by simp [hg], hy⟩
          · rw [if_neg hc] at hg
            rcases List.mem_cons.mp hg with rfl | hg
            · exact Or.inl ⟨(k2, fs2), by simp, hy⟩
            · rcases ih g hg y hy with ⟨g0, hg0, hyg0⟩ | h
              · exact Or.inl ⟨g0, by simp [hg0], hyg0⟩
              · exact Or.inr h

theorem groupBySection_mem (fs : List DField) (P : DField → Prop)
    (hfs : ∀ f ∈ fs, P f) :
    ∀ g ∈ groupBySection fs, ∀ y ∈ g.2, P y := by
  suffices h : ∀ (l acc : List DField) (accg : List (String × List DField)),
      (∀ g ∈ accg, ∀ y ∈ g.2, P y) → (∀ f ∈ l, P f) →
      ∀ g ∈ l.foldl (fun a f => insertGroupS a f.sectionName f) accg, ∀ y ∈ g.2, P y by
    exact h fs [] [] (by simp) hfs
  intro l
  induction l with
  | nil => intro acc accg haccg hl g hg y hy; exact haccg g hg y hy
  | cons f rest ih =>
      intro acc accg haccg hl g hg y hy
      refine ih acc (insertGroupS accg f.sectionName f) ?_
        (fun z hz => hl z (by simp [hz])) g hg y hy
      intro g2 hg2 z hz
      rcases insertGroupS_mem accg f.sectionName f g2 hg2 z hz with ⟨g0, hg0, hzg0⟩ | rfl
      · exact haccg g0 hg0 z hzg0
      · exact hl z (by simp)

theorem mapM_isSome {α β : Type} (p : α → Option β) :
    ∀ l : List α, (∀ x ∈ l, ∃ y, p x = some y) → ∃ ys, l.mapM p = some ys := by
  intro l
  induction l with
  | nil => intro h; exact ⟨[], rfl⟩
  | cons x xs ih =>
      intro h
      obtain ⟨y, hy⟩ := h x (by simp)
      obtain ⟨ys, hys⟩ := ih (fun z hz => h z (by simp [hz]))
      exact ⟨y :: ys, by rw [List.mapM_cons, hy, hys]; rfl⟩

theorem renderFieldPDF_isSome (f : DField)
    (h : f.type = "table" → isTableVal f.value = true) :
    ∃ bs, renderFieldPDF f = some bs := by
  unfold renderFieldPDF
  by_cases ht : f.type = "table"
  · have h2 := h ht
    rw [if_pos ht]
    cases hv : f.value <;> simp_all [isTableVal, coerceTable]
  · rw [if_neg ht]
    split_ifs <;> exact ⟨_, rfl⟩

theorem renderFieldDOCX_isSome (f : DField)
    (h : f.type = "table" → isTableVal f.value = true) :
    ∃ bs, renderFieldDOCX f = some bs := by
  unfold renderFieldDOCX
  by_cases ht : f.type = "table"
  · have h2 := h ht
    rw [if_pos ht]
    cases hv : f.value <;> simp_all [isTableVal, coerceTable]
  · rw [if_neg ht]
    split_ifs <;> exact ⟨_, rfl⟩

theorem validTables_prop {fs : List DField} (h : validTables fs = true) :
    ∀ f ∈ fs, f.type = "table" → isTableVal f.value = true := by
  intro f hf ht
  have h2 := (List.all_eq_true.mp h) f hf
  rw [ht] at h2
  simpa using h2

/-- **C10**: for every field list whose table-typed fields hold 2-D string
arrays, `generateDocument` produces a block stream without failing, in both
formats and for all ten field types; a table with only a header row renders
as a header-only grid (PDF) and a single bold header line (DOCX); the full
PDF pipeline on a header-only single-table document yields exactly the
header-only grid. -/
theorem generateDocument_total_spec :
    (∀ (docType : Option String) (fields : List DField) (format : String),
       validTables fields = true →
       ∃ out, generateDocument docType fields format = some out)
    ∧ (∀ f t, f.type = "table" → f.value = .table t →
        renderFieldPDF f = some [.tableTitle f.label, .tableGrid t.head? (t.drop 1)])
    ∧ (∀ f h, f.type = "table" → f.value = .table [h] →
        renderFieldPDF f = some [.tableTitle f.label, .tableGrid (some h) []] ∧
        renderFieldDOCX f = some [.tableTitle f.label,
          .tableRowText (String.intercalate " | " h) true])
    ∧ (∀ (label sect : String) (h : List String),
        generateDocument none [⟨"tid", label, .table [h], "table", sect, false, none⟩]
            "pdf" =
          some [.docInfo "Unknown" 1, .sectionHeader sect.toUpper,
                .tableTitle label, .tableGrid (some h) []]) := by
  refine ⟨?total, ?grid, ?headerOnly, ?pipeline⟩
  case total =>
    intro docType fields format hv
    have hfield := validTables_prop hv
    have hgroups : ∀ g ∈ groupBySection fields, ∀ y ∈ g.2,
        (y.type = "table" → isTableVal y.value = true) :=
      groupBySection_mem fields _ hfield
    by_cases hfmt : format = "pdf"
    · have hsec : ∀ g ∈ groupBySection fields,
          ∃ bs, renderSection renderFieldPDF g = some bs := by
        intro g hg
        obtain ⟨bss, hbss⟩ := mapM_isSome renderFieldPDF (sortByOrder g.2)
          (fun y hy => renderFieldPDF_isSome y
            (sortByOrder_mem g.2 _ (hgroups g hg) y hy))
        refine ⟨RBlock.sectionHeader g.1.toUpper :: bss.flatten, ?_⟩
        unfold renderSection
        rw [hbss]
        rfl
      obtain ⟨outs, houts⟩ := mapM_isSome (renderSection renderFieldPDF)
        (groupBySection fields) hsec
      refine ⟨RBlock.docInfo (jsOrStr docType "Unknown") fields.length :: outs.flatten, ?_⟩
      unfold generateDocument generatePDF
      rw [if_pos hfmt, houts]
      rfl
    · have hsec : ∀ g ∈ groupBySection fields,
          ∃ bs, renderSection renderFieldDOCX g = some bs := by
        intro g hg
        obtain ⟨bss, hbss⟩ := mapM_isSome renderFieldDOCX (sortByOrder g.2)
          (fun y hy => renderFieldDOCX_isSome y
            (sortByOrder_mem g.2 _ (hgroups g hg) y hy))
        refine ⟨RBlock.sectionHeader g.1.toUpper :: bss.flatten, ?_⟩
        unfold renderSection
        rw [hbss]
        rfl
      obtain ⟨outs, houts⟩ := mapM_isSome (renderSection renderFieldDOCX)
        (groupBySection fields) hsec
      refine ⟨RBlock.docInfo (jsOrStr docType "Unknown") fields.length :: outs.flatten, ?_⟩
      unfold generateDocument generateDOCX
      rw [if_neg hfmt, houts]
      rfl
  case grid =>
    intro f t ht hv
    unfold renderFieldPDF
    rw [if_pos ht, hv]
    rfl
  case headerOnly =>
    intro f h ht hv
    constructor
    · unfold renderFieldPDF
      rw [if_pos ht, hv]
      rfl
    · unfold renderFieldDOCX
      rw [if_pos ht, hv]
      rfl
  case pipeline =>
    intro label sect h
    rfl

/-- Witness for C10: concrete documents with one field of each of the ten
types render in both formats, and a concrete header-only table renders as a
header-only grid. -/
theorem generateDocument_total_spec_witness :
    (∃ out, generateDocument none c10fields "pdf" = some out) ∧
    (∃ out2, generateDocument none c10fields "docx" = some out2) ∧
    renderFieldPDF ⟨"t", "Tab", .table [["h1", "h2"]], "table", "S", false, none⟩ =
      some [.tableTitle "Tab", .tableGrid (some ["h1", "h2"]) []] := by
  refine ⟨generateDocument_total_spec.1 none c10fields "pdf" (by rfl),
          generateDocument_total_spec.1 none c10fields "docx" (by rfl),
          (generateDocument_total_spec.2.2.1 _ ["h1", "h2"] rfl rfl).1⟩

end ChemDoc
